import Mathlib

/-!
Shallow embedding of the FileVault content-addressed deduplication backend
(`backend/files/models.py`, `backend/files/views.py`) and proofs about its
ingest, deletion and listing behaviour.

Machine integers are modelled as `Nat` with explicit reduction `% 2^32`
where the source's 32-bit arithmetic (SHA-256) overflows.  A byte is a
`Nat` (values `< 256` in every run the source can produce).
-/

namespace FileVault

/-! ## SHA-256 (models Python's `hashlib.sha256`)

`compute_file_hash` in `views.py` feeds the file's bytes into
`hashlib.sha256` and returns `hexdigest()`.  The hash itself is library
code outside the repository; it is embedded here as the standard
FIPS 180-4 SHA-256 over a list of bytes, with 32-bit words as `Nat`
reduced mod `2^32`. -/

/-- Reduce to a 32-bit word. -/
def w32 (n : Nat) : Nat := n % 4294967296

/-- Right rotation of a 32-bit word by `n` bits. -/
def rotr (n x : Nat) : Nat := w32 ((x >>> n) ||| (x <<< (32 - n)))

/-- SHA-256 `Ch` function. -/
def shaCh (x y z : Nat) : Nat := (x &&& y) ^^^ ((x ^^^ 4294967295) &&& z)

/-- SHA-256 `Maj` function. -/
def shaMaj (x y z : Nat) : Nat := (x &&& y) ^^^ (x &&& z) ^^^ (y &&& z)

def bigSigma0 (x : Nat) : Nat := rotr 2 x ^^^ rotr 13 x ^^^ rotr 22 x

def bigSigma1 (x : Nat) : Nat := rotr 6 x ^^^ rotr 11 x ^^^ rotr 25 x

def smallSigma0 (x : Nat) : Nat := rotr 7 x ^^^ rotr 18 x ^^^ (x >>> 3)

def smallSigma1 (x : Nat) : Nat := rotr 17 x ^^^ rotr 19 x ^^^ (x >>> 10)

/-- The 64 SHA-256 round constants. -/
def shaK : List Nat :=
  [1116352408, 1899447441, 3049323471, 3921009573, 961987163, 1508970993,
   2453635748, 2870763221, 3624381080, 310598401, 607225278, 1426881987,
   1925078388, 2162078206, 2614888103, 3248222580, 3835390401, 4022224774,
   264347078, 604807628, 770255983, 1249150122, 1555081692, 1996064986,
   2554220882, 2821834349, 2952996808, 3210313671, 3336571891, 3584528711,
   113926993, 338241895, 666307205, 773529912, 1294757372, 1396182291,
   1695183700, 1986661051, 2177026350, 2456956037, 2730485921, 2820302411,
   3259730800, 3345764771, 3516065817, 3600352804, 4094571909, 275423344,
   430227734, 506948616, 659060556, 883997877, 958139571, 1322822218,
   1537002063, 1747873779, 1955562222, 2024104815, 2227730452, 2361852424,
   2428436474, 2756734187, 3204031479, 3329325298]

/-- The initial SHA-256 hash state. -/
def shaH0 : List Nat :=
  [1779033703, 3144134277, 1013904242, 2773480762,
   1359893119, 2600822924, 528734635, 1541459225]

/-- Big-endian byte encoding of `n` on `k` bytes. -/
def beBytes : Nat → Nat → List Nat
  | 0, _ => []
  | k + 1, n => beBytes k (n / 256) ++ [n % 256]

/-- FIPS 180-4 message padding: append `0x80`, zeros to 56 mod 64, then the
bit length on 8 big-endian bytes. -/
def shaPad (msg : List Nat) : List Nat :=
  msg ++ [128] ++ List.replicate ((119 - msg.length % 64) % 64) 0 ++ beBytes 8 (8 * msg.length)

/-- Group bytes into big-endian 32-bit words. -/
def bytesToWords : List Nat → List Nat
  | b0 :: b1 :: b2 :: b3 :: rest =>
      (b0 * 16777216 + b1 * 65536 + b2 * 256 + b3) :: bytesToWords rest
  | _ => []

/-- One extension step of the message schedule: append
`σ1(W[t-2]) + W[t-7] + σ0(W[t-15]) + W[t-16]`. -/
def scheduleStep (ws : List Nat) : List Nat :=
  let n := ws.length
  ws ++ [w32 (smallSigma1 (ws.getD (n - 2) 0) + ws.getD (n - 7) 0 +
              smallSigma0 (ws.getD (n - 15) 0) + ws.getD (n - 16) 0)]

/-- Extend the 16 block words to the 64-entry message schedule. -/
def schedule (ws : List Nat) : List Nat := scheduleStep^[48] ws

/-- One compression round on the 8-word working state. -/
def shaRound (st : List Nat) (kw : Nat × Nat) : List Nat :=
  match st with
  | [a, b, c, d, e, f, g, h] =>
      let t1 := w32 (h + bigSigma1 e + shaCh e f g + kw.1 + kw.2)
      let t2 := w32 (bigSigma0 a + shaMaj a b c)
      [w32 (t1 + t2), a, b, c, w32 (d + t1), e, f, g]
  | _ => st

/-- Compress one 64-byte block into the hash state. -/
def shaCompress (hs : List Nat) (block : List Nat) : List Nat :=
  let st := (shaK.zip (schedule (bytesToWords block))).foldl shaRound hs
  (hs.zip st).map (fun p => w32 (p.1 + p.2))

/-- Split into 64-byte blocks, with an explicit recursion bound (each step
consumes 64 bytes, so any `fuel ≥ length` is enough; structural recursion on
the bound keeps the definition computable inside the kernel). -/
def toBlocksAux : Nat → List Nat → List (List Nat)
  | 0, _ => []
  | fuel + 1, l => if l = [] then [] else l.take 64 :: toBlocksAux fuel (l.drop 64)

/-- Split a padded message into 64-byte blocks. -/
def toBlocks (l : List Nat) : List (List Nat) := toBlocksAux l.length l

/-- Lowercase hexadecimal digit. -/
def hexDigitChar (n : Nat) : Char :=
  if n < 10 then Char.ofNat (48 + n) else Char.ofNat (87 + n)

/-- Eight lowercase hex characters of a 32-bit word. -/
def wordHex (n : Nat) : List Char :=
  (beBytes 4 n).flatMap (fun b => [hexDigitChar (b / 16), hexDigitChar (b % 16)])

/-- `hashlib.sha256(bytes).hexdigest()`: the lowercase 64-character hex digest. -/
def sha256hex (msg : List Nat) : String :=
  String.mk (((toBlocks (shaPad msg)).foldl shaCompress shaH0).flatMap wordHex)

/-! ## Byte streams and `compute_file_hash` (views.py lines 17-32)

A Python binary file object is modelled as its byte content plus the
current read position (`tell`/`seek`/`read`). -/

/-- An open binary stream: content bytes and the current read position. -/
structure ByteStream where
  data : List Nat
  pos : Nat
deriving DecidableEq

/-- `file_obj.read(k)`: up to `k` bytes from the current position, advancing
the position by the number of bytes actually read (reading at or past the
end returns the empty chunk). -/
def ByteStream.read (s : ByteStream) (k : Nat) : List Nat × ByteStream :=
  let chunk := (s.data.drop s.pos).take k
  (chunk, ⟨s.data, s.pos + chunk.length⟩)

/-- The `while True: chunk = file_obj.read(chunk_size); if not chunk: break;
sha256.update(chunk)` loop of `compute_file_hash`, with an explicit
recursion bound (every iteration but the last advances the position, so any
`fuel > data.length` is enough): returns the concatenation of all bytes fed
to the hash, together with the stream after the loop. -/
def hashLoopAux : Nat → ByteStream → Nat → List Nat → List Nat × ByteStream
  | 0, s, _, acc => (acc, s)
  | fuel + 1, s, chunk_size, acc =>
      let r := s.read chunk_size
      if r.1 = [] then (acc, r.2) else hashLoopAux fuel r.2 chunk_size (acc ++ r.1)

/-- The hashing loop of `compute_file_hash` (views.py lines 24-28). -/
def hashLoop (s : ByteStream) (chunk_size : Nat) (acc : List Nat) :
    List Nat × ByteStream :=
  hashLoopAux (s.data.length + 1) s chunk_size acc

/-- `compute_file_hash(file_obj, chunk_size)` (views.py lines 17-32): records
the original position, seeks to 0, hashes the stream in chunks, restores the
position in the `finally` block, and returns the hex digest.  The result is
the digest together with the stream as left behind by the call. -/
def compute_file_hash (file_obj : ByteStream) (chunk_size : Nat) :
    String × ByteStream :=
  let original_position := file_obj.pos
  let r := hashLoop ⟨file_obj.data, 0⟩ chunk_size []
  (sha256hex r.1, ⟨r.2.data, original_position⟩)

/-- The digest `compute_file_hash` assigns to an upload's content, at the
source's default `chunk_size=8192`. -/
def fileHash (s : ByteStream) : String := (compute_file_hash s 8192).1

/-! ## Data model (models.py)

`File` is the single entity.  The `file` column is a `FileField`; its stored
value is the blob locator path produced by `file_upload_path`.  The physical
blob store (Django media storage) is a locator-addressed map of byte lists.
The `uuid4` primary keys and the `uuid4` in the upload path are external
randomness; the model draws both from per-database fresh counters instead,
which preserves exactly the property the source gets from them: a value
never seen before.  `uploaded_at` (`auto_now_add`) is supplied by a clock
argument. -/

/-- A row of the `files_file` table (models.py, class `File`). -/
structure File where
  id : Nat
  /-- The `FileField`'s stored name: the blob locator path. -/
  file : String
  original_filename : String
  file_type : String
  size : Nat
  uploaded_at : Nat
  content_hash : Option String
  is_duplicate : Bool
  reference_count : Nat
  referenced_file : Option Nat
deriving DecidableEq

/-- Database plus media storage: table rows, blob store, and the fresh
supplies standing in for `uuid4`. -/
structure DB where
  records : List File
  /-- Media storage: blob locator path to stored bytes. -/
  blobs : List (String × List Nat)
  nextId : Nat
  nextLoc : Nat
deriving DecidableEq

/-- The character for decimal digit `d` (for `d < 10`). -/
def digitChar : Nat → Char
  | 0 => '0' | 1 => '1' | 2 => '2' | 3 => '3' | 4 => '4'
  | 5 => '5' | 6 => '6' | 7 => '7' | 8 => '8' | _ => '9'

/-- Decimal digit characters of `n`, most significant first, by structural
recursion on an explicit bound (`n/10 < n`, so `fuel > n` is enough). -/
def locTokenAux : Nat → Nat → List Char
  | 0, _ => []
  | fuel + 1, n =>
      if n < 10 then [digitChar n]
      else locTokenAux fuel (n / 10) ++ [digitChar (n % 10)]

/-- Decimal-digit token for `n`, standing in for the `uuid4()` token in the
upload path (the randomness is external; the model draws the token from the
`DB.nextLoc` fresh supply, which gives exactly what the source relies on:
a name never used before). -/
def locToken (n : Nat) : List Char := locTokenAux (n + 1) n

/-- Python `filename.split('.')`, split at every dot. -/
def splitOnChar (sep : Char) : List Char → List (List Char)
  | [] => [[]]
  | c :: cs =>
      let r := splitOnChar sep cs
      if c = sep then [] :: r
      else
        match r with
        | [] => [[c]]
        | h :: t => (c :: h) :: t

/-- `file_upload_path` (models.py lines 5-8): keeps the extension (the last
dot-separated component) of the client filename and stores under
`uploads/<fresh-token>.<ext>`. -/
def file_upload_path (fresh : Nat) (filename : String) : String :=
  "uploads/" ++ String.mk (locToken fresh) ++ "." ++
    String.mk ((splitOnChar '.' filename.data).getLastD [])

/-- An uploaded file as it reaches `FileViewSet.create`: content stream plus
the client-supplied name and declared content type (`file_obj.size` is the
stream's byte count). -/
structure UploadedFile where
  stream : ByteStream
  name : String
  content_type : String

/-- `File.objects.filter(content_hash=digest).first()` (views.py line 109)
and `File.objects.get(content_hash=digest)` (line 158): the canonical-record
lookup.  Duplicates store SQL `NULL` (`none`), so only canonical records can
match; the unique constraint guarantees at most one does. -/
def findByContentHash (records : List File) (digest : String) : Option File :=
  records.find? (fun r => r.content_hash == some digest)

/-- The duplicate-creation block shared verbatim by the fast path
(views.py lines 111-134) and the `IntegrityError` fallback (lines 158-179):
create a duplicate row reusing the canonical's blob locator (no blob write),
then atomically increment the canonical's `reference_count` with an SQL
`UPDATE ... WHERE id = existing.id`. -/
def createDuplicate (db : DB) (existing_file : File) (file_obj : UploadedFile)
    (now : Nat) : DB × File :=
  let duplicate_file : File :=
    { id := db.nextId
      file := existing_file.file
      original_filename := file_obj.name
      file_type := file_obj.content_type
      size := file_obj.stream.data.length
      uploaded_at := now
      content_hash := none
      is_duplicate := true
      reference_count := 1
      referenced_file := some existing_file.id }
  let records1 := db.records ++ [duplicate_file]
  let records2 := records1.map (fun r =>
    if r.id = existing_file.id then { r with reference_count := r.reference_count + 1 } else r)
  ({ db with records := records2, nextId := db.nextId + 1 }, duplicate_file)

/-- `FileViewSet.create` (views.py lines 101-154), the un-raced transaction:
hash the stream, look up a canonical record with that digest, and either
link a duplicate to it or insert a fresh canonical record, writing the bytes
to a newly allocated blob locator.  (The `IntegrityError` fallback of lines
156-179 only runs when a concurrent ingest races the insert; it is modelled
separately as `createOnConflict`.  Serializer `max_length` validation of the
metadata strings is elided.) -/
def create (db : DB) (file_obj : UploadedFile) (now : Nat) : DB × File :=
  let content_hash := (compute_file_hash file_obj.stream 8192).1
  match findByContentHash db.records content_hash with
  | some existing_file => createDuplicate db existing_file file_obj now
  | none =>
      let loc := file_upload_path db.nextLoc file_obj.name
      let canonical : File :=
        { id := db.nextId
          file := loc
          original_filename := file_obj.name
          file_type := file_obj.content_type
          size := file_obj.stream.data.length
          uploaded_at := now
          content_hash := some content_hash
          is_duplicate := false
          reference_count := 1
          referenced_file := none }
      ({ db with
          records := db.records ++ [canonical]
          blobs := db.blobs ++ [(loc, file_obj.stream.data)]
          nextId := db.nextId + 1
          nextLoc := db.nextLoc + 1 }, canonical)

/-- The `except IntegrityError` fallback of `FileViewSet.create` (views.py
lines 156-179), entered when the canonical `INSERT` lost a race: by then
`serializer.save()` has already written the upload's bytes to media storage
at a freshly allocated locator (the `FileField` writes to storage before the
row insert, and only the rejected row — not the file — is rolled back), so
the orphaned blob stays.  The handler re-fetches the now-visible canonical
record (`File.objects.get`) and runs the duplicate-creation block.  Returns
`none` only if no canonical with the digest exists (`DoesNotExist`, which
the race that triggers this path rules out). -/
def createOnConflict (db : DB) (file_obj : UploadedFile) (now : Nat) :
    Option (DB × File) :=
  let content_hash := (compute_file_hash file_obj.stream 8192).1
  let orphanLoc := file_upload_path db.nextLoc file_obj.name
  let db1 := { db with
      blobs := db.blobs ++ [(orphanLoc, file_obj.stream.data)]
      nextLoc := db.nextLoc + 1 }
  match findByContentHash db1.records content_hash with
  | none => none
  | some existing_file => some (createDuplicate db1 existing_file file_obj now)

/-- Outcome of `FileViewSet.destroy`. -/
inductive DestroyResult where
  /-- HTTP 204 (views.py lines 194, 208). -/
  | noContent
  /-- The `PermissionDenied` raised for a protected canonical record
  (views.py lines 198-200); DRF surfaces it as HTTP 403. -/
  | permissionDenied
  /-- `get_object()` found no row with the given id (HTTP 404). -/
  | notFound
  /-- An uncaught database `ProtectedError` from the `on_delete=PROTECT`
  foreign key (models.py line 25): only possible in states the running
  system never reaches. -/
  | dbProtected
deriving DecidableEq

/-- `instance.delete()` under the `on_delete=PROTECT` foreign key
(models.py lines 23-29): the database refuses to delete a row that another
live row still references, else removes the row.  `none` models the raised
`ProtectedError`. -/
def deleteRow (records : List File) (pk : Nat) : Option (List File) :=
  if records.any (fun r => r.referenced_file == some pk && r.id != pk) then none
  else some (records.filter (fun r => r.id ≠ pk))

/-- `FileViewSet.destroy` (views.py lines 181-208).  Duplicates: atomically
decrement the referenced original's count, delete the row, blob untouched.
Originals with `reference_count > 1`: raise `PermissionDenied`, nothing
changes.  Otherwise: delete the physical file (when the `FileField` is
truthy, i.e. the stored name is non-empty), then the row.  A database
`ProtectedError` would roll the transaction's row changes back, but the
storage-level blob deletion is not transactional and would stick. -/
def destroy (db : DB) (pk : Nat) : DB × DestroyResult :=
  match db.records.find? (fun r => r.id == pk) with
  | none => (db, .notFound)
  | some inst =>
    if inst.is_duplicate then
      let records1 :=
        match inst.referenced_file with
        | some oid => db.records.map (fun r =>
            if r.id = oid then { r with reference_count := r.reference_count - 1 } else r)
        | none => db.records
      match deleteRow records1 pk with
      | none => (db, .dbProtected)
      | some records2 => ({ db with records := records2 }, .noContent)
    else
      if inst.reference_count > 1 then
        (db, .permissionDenied)
      else
        let blobs1 :=
          if inst.file ≠ "" then db.blobs.filter (fun b => b.1 ≠ inst.file) else db.blobs
        match deleteRow db.records pk with
        | none => ({ db with blobs := blobs1 }, .dbProtected)
        | some records1 => ({ db with records := records1, blobs := blobs1 }, .noContent)

/-! ## Listing and filtering (`FileViewSet.get_queryset`, views.py lines 39-99)

Query parameters reach the view as optional strings.  `File.objects.all()`
carries the model's default ordering `['-uploaded_at']` (models.py line 32),
modelled as an insertion sort; `.filter(...)` keeps that order. -/

/-- The query parameters `get_queryset` reads (`request.query_params.get`). -/
structure QueryParams where
  search : Option String
  file_type : Option String
  size_min : Option String
  size_max : Option String
  uploaded_after : Option String
  uploaded_before : Option String

/-- A raised `rest_framework.exceptions.ValidationError({field: message})`. -/
structure ValidationErr where
  field : String
  message : String
deriving DecidableEq

/-- Nonempty all-decimal-digit character list to its value (the digit core
of Python `int(...)` and of Django's date regexes). -/
def digitsToNat : List Char → Option Nat
  | [] => none
  | l =>
      if l.all Char.isDigit then
        some (l.foldl (fun a c => 10 * a + (c.toNat - 48)) 0)
      else none

/-- Strip leading and trailing whitespace. -/
def trimChars (l : List Char) : List Char :=
  ((l.dropWhile Char.isWhitespace).reverse.dropWhile Char.isWhitespace).reverse

/-- Python `int(s)`: optional surrounding whitespace, optional sign, decimal
digits; raises `ValueError` (here `none`) otherwise.  (PEP 515 digit-group
underscores and non-ASCII digits are elided.) -/
def pyInt (s : String) : Option Int :=
  match trimChars s.data with
  | '-' :: rest => (digitsToNat rest).map (fun n => -(n : Int))
  | '+' :: rest => (digitsToNat rest).map (fun n => (n : Int))
  | t => (digitsToNat t).map (fun n => (n : Int))

/-- A strictly monotone (in lexicographic component order) timestamp key for
a naive datetime; `uploaded_at` values live on the same scale. -/
def dtKey (y mo d h mi s : Nat) : Nat :=
  s + 61 * (mi + 61 * (h + 25 * (d + 32 * (mo + 13 * y))))

/-- `django.utils.dateparse.parse_date` on the characters of the input:
`YYYY-M[M]-D[D]`.  Strings the parser rejects yield `none`; so do component
values `datetime.date` would raise on (the view catches that `ValueError`
the same way).  Day validity is checked against 1..31 only (month lengths
elided). -/
def parse_dateChars (l : List Char) : Option (Nat × Nat × Nat) :=
  match splitOnChar '-' l with
  | [ys, ms, ds] =>
      if ys.length = 4 && (ms.length = 1 || ms.length = 2)
          && (ds.length = 1 || ds.length = 2) then
        match digitsToNat ys, digitsToNat ms, digitsToNat ds with
        | some y, some m, some d =>
            if 1 ≤ m && m ≤ 12 && 1 ≤ d && d ≤ 31 then some (y, m, d) else none
        | _, _, _ => none
      else none
  | _ => none

/-- `django.utils.dateparse.parse_date` (views.py lines 73, 89). -/
def parse_date (s : String) : Option (Nat × Nat × Nat) := parse_dateChars s.data

/-- `H[H]:M[M][:S[S]]` time component of `parse_datetime`. -/
def parse_timeChars (l : List Char) : Option (Nat × Nat × Nat) :=
  let comp (t : List Char) : Option Nat :=
    if t.length = 1 || t.length = 2 then digitsToNat t else none
  match splitOnChar ':' l with
  | [hs, ms] =>
      match comp hs, comp ms with
      | some h, some mi => if h ≤ 23 && mi ≤ 59 then some (h, mi, 0) else none
      | _, _ => none
  | [hs, ms, ss] =>
      match comp hs, comp ms, comp ss with
      | some h, some mi, some sec =>
          if h ≤ 23 && mi ≤ 59 && sec ≤ 59 then some (h, mi, sec) else none
      | _, _, _ => none
  | _ => none

/-- `django.utils.dateparse.parse_datetime` (views.py lines 71, 87): a date,
a `T` or space separator, and a time (fractional seconds and timezone
suffixes elided; `timezone.make_aware` only attaches a zone and is dropped
with them). -/
def parse_datetime (s : String) : Option Nat :=
  let parts :=
    if s.data.contains 'T' then splitOnChar 'T' s.data else splitOnChar ' ' s.data
  match parts with
  | [dpart, tpart] =>
      match parse_dateChars dpart, parse_timeChars tpart with
      | some (y, mo, d), some (h, mi, sec) => some (dtKey y mo d h mi sec)
      | _, _ => none
  | _ => none

/-- `original_filename__icontains=search`: case-insensitive substring
match. -/
def icontains (hay needle : String) : Bool :=
  decide ((needle.data.map Char.toLower) <:+: (hay.data.map Char.toLower))

/-- Insert into a list kept sorted by descending `uploaded_at`. -/
def insertDesc (r : File) : List File → List File
  | [] => [r]
  | x :: xs => if x.uploaded_at ≤ r.uploaded_at then r :: x :: xs else x :: insertDesc r xs

/-- The model Meta ordering `['-uploaded_at']` applied by
`File.objects.all()`: newest first (order among equal timestamps is not
specified by SQL; any descending-sorted order models it). -/
def orderByUploadedAtDesc (rs : List File) : List File := rs.foldr insertDesc []

/-- views.py lines 43-45: substring filter (skipped when the parameter is
absent or empty, per Python truthiness). -/
def applySearch (params : QueryParams) (qs : List File) : List File :=
  match params.search with
  | some s => if s ≠ "" then qs.filter (fun r => icontains r.original_filename s) else qs
  | none => qs

/-- views.py lines 47-49: exact `file_type` match. -/
def applyFileType (params : QueryParams) (qs : List File) : List File :=
  match params.file_type with
  | some s => if s ≠ "" then qs.filter (fun r => r.file_type = s) else qs
  | none => qs

/-- views.py lines 51-57: `size__gte` bound, `ValidationError` on a
non-integer value. -/
def applySizeMin (params : QueryParams) (qs : List File) :
    Except ValidationErr (List File) :=
  match params.size_min with
  | none => .ok qs
  | some s =>
      if s = "" then .ok qs else
      match pyInt s with
      | some n => .ok (qs.filter (fun r => n ≤ (r.size : Int)))
      | none => .error ⟨"size_min", "Must be a valid integer"⟩

/-- views.py lines 59-65: `size__lte` bound. -/
def applySizeMax (params : QueryParams) (qs : List File) :
    Except ValidationErr (List File) :=
  match params.size_max with
  | none => .ok qs
  | some s =>
      if s = "" then .ok qs else
      match pyInt s with
      | some n => .ok (qs.filter (fun r => (r.size : Int) ≤ n))
      | none => .error ⟨"size_max", "Must be a valid integer"⟩

/-- views.py lines 67-81: `uploaded_at__gte` bound — datetime first, then
date at start of day, else `ValidationError`. -/
def applyUploadedAfter (params : QueryParams) (qs : List File) :
    Except ValidationErr (List File) :=
  match params.uploaded_after with
  | none => .ok qs
  | some s =>
      if s = "" then .ok qs else
      match parse_datetime s with
      | some k => .ok (qs.filter (fun r => k ≤ r.uploaded_at))
      | none =>
          match parse_date s with
          | some (y, mo, d) => .ok (qs.filter (fun r => dtKey y mo d 0 0 0 ≤ r.uploaded_at))
          | none => .error ⟨"uploaded_after", "Must be a valid ISO 8601 date (YYYY-MM-DD)"⟩

/-- views.py lines 83-97: `uploaded_at__lte` bound — datetime first, then
date at end of day (`datetime.max.time()`, fractional part elided), else
`ValidationError`. -/
def applyUploadedBefore (params : QueryParams) (qs : List File) :
    Except ValidationErr (List File) :=
  match params.uploaded_before with
  | none => .ok qs
  | some s =>
      if s = "" then .ok qs else
      match parse_datetime s with
      | some k => .ok (qs.filter (fun r => r.uploaded_at ≤ k))
      | none =>
          match parse_date s with
          | some (y, mo, d) => .ok (qs.filter (fun r => r.uploaded_at ≤ dtKey y mo d 23 59 59))
          | none => .error ⟨"uploaded_before", "Must be a valid ISO 8601 date (YYYY-MM-DD)"⟩

/-- `FileViewSet.get_queryset` (views.py lines 39-99): the default-ordered
table with the six filters applied in source order; the first malformed
typed filter raises. -/
def get_queryset (db : DB) (params : QueryParams) :
    Except ValidationErr (List File) := do
  let qs := orderByUploadedAtDesc db.records
  let qs := applySearch params qs
  let qs := applyFileType params qs
  let qs ← applySizeMin params qs
  let qs ← applySizeMax params qs
  let qs ← applyUploadedAfter params qs
  applyUploadedBefore params qs

/-! ## State predicates and reachability -/

/-- The number of live duplicate records referencing the record id `cid`. -/
def dupCount (records : List File) (cid : Nat) : Nat :=
  records.countP (fun r => r.is_duplicate && r.referenced_file == some cid)

/-- Every stored blob sits at a locator allocated from an earlier value of
the fresh supply. -/
def LocsOK (db : DB) : Prop :=
  ∀ b ∈ db.blobs, ∃ k f, k < db.nextLoc ∧ b.1 = file_upload_path k f

/-- Primary keys are pairwise distinct and below the fresh supply. -/
def IdsOK (db : DB) : Prop :=
  (∀ r ∈ db.records, r.id < db.nextId) ∧
    (db.records.map (fun r => r.id)).Nodup

/-- The record-level invariant maintained by ingest and deletion: key
discipline, the canonical/duplicate field discipline, and the
reference-count accounting. -/
structure Inv (db : DB) : Prop where
  idsLt : ∀ r ∈ db.records, r.id < db.nextId
  idsNodup : (db.records.map (fun r => r.id)).Nodup
  dupFields : ∀ r ∈ db.records, r.is_duplicate = true →
      r.content_hash = none ∧ r.reference_count = 1 ∧
      ∃ cid, r.referenced_file = some cid ∧
        ∃ c ∈ db.records, c.id = cid ∧ c.is_duplicate = false
  canonFields : ∀ r ∈ db.records, r.is_duplicate = false →
      r.referenced_file = none ∧
      r.reference_count = 1 + dupCount db.records r.id

/-- States reachable from the empty store by ingests (including the raced
ingest that goes through the `IntegrityError` fallback) and deletions. -/
inductive Reachable : DB → Prop where
  | init : Reachable ⟨[], [], 0, 0⟩
  | step_create (db : DB) (f : UploadedFile) (now : Nat) :
      Reachable db → Reachable (create db f now).1
  | step_conflict (db : DB) (f g : UploadedFile) (n1 n2 : Nat)
      (db' : DB) (rec : File) :
      Reachable db →
      findByContentHash db.records (fileHash f.stream) = none →
      fileHash f.stream = fileHash g.stream →
      createOnConflict (create db g n2).1 f n1 = some (db', rec) →
      Reachable db'
  | step_destroy (db : DB) (pk : Nat) :
      Reachable db → Reachable (destroy db pk).1

/-- The listing order required of every successful listing: newest first. -/
def newestFirst (l : List File) : Prop :=
  l.Pairwise (fun a b => b.uploaded_at ≤ a.uploaded_at)

/-- A present, truthy, non-integer size bound (what `int()` rejects). -/
def badSizeParam (o : Option String) : Prop :=
  ∃ s, o = some s ∧ s ≠ "" ∧ pyInt s = none

/-- A present, truthy date bound rejected by both `parse_datetime` and
`parse_date`. -/
def badDateParam (o : Option String) : Prop :=
  ∃ s, o = some s ∧ s ≠ "" ∧ parse_datetime s = none ∧ parse_date s = none

/-! ## Concrete fixtures used by the witnesses -/

/-- The empty store. -/
def emptyDB : DB := ⟨[], [], 0, 0⟩

/-- An upload of content `b"hi"` named `a.txt`. -/
def upA : UploadedFile := ⟨⟨[104, 105], 0⟩, "a.txt", "text/plain"⟩

/-- A second upload of the same content `b"hi"` named `b.txt`. -/
def upB : UploadedFile := ⟨⟨[104, 105], 0⟩, "b.txt", "text/plain"⟩

/-- One canonical record (id 0) for content `b"hi"`. -/
def dbOne : DB := (create emptyDB upA 0).1

/-- The canonical record (id 0, `reference_count` 2) plus one duplicate
(id 1). -/
def dbTwo : DB := (create dbOne upB 1).1

/-- The canonical record as created by the first ingest. -/
def canonA : File := (create emptyDB upA 0).2

/-- The canonical record as stored in `dbTwo`, after the duplicate ingest
incremented it. -/
def canonTwo : File := { canonA with reference_count := 2 }

/-- The duplicate record created by the second ingest. -/
def dupB : File := (create dbOne upB 1).2

/-- Two records with distinct timestamps, for the listing witnesses. -/
def dbTimes : DB :=
  ⟨[⟨0, "uploads/0.txt", "a.txt", "text/plain", 2, 5, some "h0", false, 1, none⟩,
    ⟨1, "uploads/1.txt", "b.txt", "text/plain", 2, 9, some "h1", false, 1, none⟩],
   [], 2, 2⟩

/-! ## Theorems -/

/-- The hashing loop reads everything from the seek position to the end of
the stream and stops with the position at the end (or unmoved, when it
already started past the end). -/
theorem hashLoopAux_spec (data : List Nat) (k : Nat) (hk : 0 < k) :
    ∀ fuel pos acc, data.length - pos < fuel →
      hashLoopAux fuel ⟨data, pos⟩ k acc =
        (acc ++ data.drop pos, ⟨data, max data.length pos⟩) := by
  intro fuel
  induction fuel with
  | zero => intro pos acc h; omega
  | succ fuel ih =>
      intro pos acc h
      by_cases hchunk : (data.drop pos).take k = []
      · have hnil : data.drop pos = [] := by
          rcases List.take_eq_nil_iff.mp hchunk with h1 | h1
          · omega
          · exact h1
        have hle : data.length ≤ pos := by
          have := List.length_drop pos data
          rw [hnil] at this
          simp at this
          omega
        simp only [hashLoopAux, ByteStream.read, hchunk, if_pos rfl]
        simp [hnil, Nat.max_eq_right hle]
      · have hlt : pos < data.length := by
          by_contra hge
          apply hchunk
          have hnil : data.drop pos = [] := by
            apply List.eq_nil_of_length_eq_zero
            rw [List.length_drop]
            omega
          rw [hnil, List.take_nil]
        have hclen : ((data.drop pos).take k).length = min k (data.length - pos) := by
          rw [List.length_take, List.length_drop]
        simp only [hashLoopAux, ByteStream.read, if_neg hchunk]
        rw [ih (pos + ((data.drop pos).take k).length) (acc ++ (data.drop pos).take k)
          (by omega)]
        have hdd : data.drop (pos + ((data.drop pos).take k).length) =
            (data.drop pos).drop (((data.drop pos).take k).length) := by
          rw [List.drop_drop, Nat.add_comm]
        have hjoin : (data.drop pos).take k ++
            data.drop (pos + ((data.drop pos).take k).length) = data.drop pos := by
          rw [hdd]
          rcases Nat.le_total k (data.drop pos).length with hcase | hcase
          · have hck : ((data.drop pos).take k).length = k := by
              rw [List.length_take]; omega
            rw [hck, List.take_append_drop]
          · have hck : ((data.drop pos).take k).length = (data.drop pos).length := by
              rw [List.length_take]; omega
            rw [hck, List.drop_length, List.append_nil]
            exact List.take_of_length_le hcase
        have hmax : max data.length (pos + ((data.drop pos).take k).length) =
            max data.length pos := by
          omega
        rw [List.append_assoc, hjoin, hmax]

/-- `compute_file_hash` returns the digest of the full content and leaves
the stream exactly as it found it. -/
theorem compute_file_hash_eq (s : ByteStream) (k : Nat) (hk : 0 < k) :
    compute_file_hash s k = (sha256hex s.data, s) := by
  obtain ⟨data, pos⟩ := s
  unfold compute_file_hash hashLoop
  rw [hashLoopAux_spec data k hk _ 0 [] (by simp)]
  simp

/-- C8: `compute_file_hash` reads the entire stream and is deterministic —
its digest is a function of the byte content alone (the filename and other
metadata are not even inputs), so two calls on identical content return
identical digests — and the returned stream equals the input stream, i.e.
the read position after the call equals the position before it. -/
theorem compute_file_hash_spec (s : ByteStream) (chunk_size : Nat)
    (h : 0 < chunk_size) :
    compute_file_hash s chunk_size = (sha256hex s.data, s) :=
  compute_file_hash_eq s chunk_size h

/-- C8 witness: a stream positioned mid-content, hashed at the source's
chunk size. -/
theorem compute_file_hash_spec_witness :
    compute_file_hash ⟨[104, 105], 1⟩ 8192 = (sha256hex [104, 105], ⟨[104, 105], 1⟩) :=
  compute_file_hash_spec ⟨[104, 105], 1⟩ 8192 (by decide)

/-- The digit token does not depend on the recursion bound, as long as the
bound exceeds the value. -/
theorem locTokenAux_fuel (n : Nat) : ∀ f1 f2, n < f1 → n < f2 →
    locTokenAux f1 n = locTokenAux f2 n := by
  induction n using Nat.strong_induction_on with
  | _ n ih =>
      intro f1 f2 h1 h2
      match f1, f2 with
      | fa + 1, fb + 1 =>
          by_cases hn : n < 10
          · simp [locTokenAux, hn]
          · have hdiv : n / 10 < n := Nat.div_lt_self (by omega) (by omega)
            simp only [locTokenAux, hn, if_neg, ite_false]
            rw [ih (n / 10) hdiv fa fb (by omega) (by omega)]

/-- Unfolding equation of `locToken` free of the recursion bound. -/
theorem locToken_unfold (n : Nat) :
    locToken n = if n < 10 then [digitChar n]
      else locToken (n / 10) ++ [digitChar (n % 10)] := by
  by_cases hn : n < 10
  · rw [if_pos hn]
    show locTokenAux (n + 1) n = [digitChar n]
    simp [locTokenAux, hn]
  · rw [if_neg hn]
    show locTokenAux (n + 1) n = locTokenAux (n / 10 + 1) (n / 10) ++ [digitChar (n % 10)]
    have hdiv : n / 10 < n := Nat.div_lt_self (by omega) (by omega)
    have h1 : locTokenAux (n + 1) n = locTokenAux n (n / 10) ++ [digitChar (n % 10)] := by
      simp [locTokenAux, hn]
    rw [h1, locTokenAux_fuel (n / 10) n (n / 10 + 1) (by omega) (by omega)]

/-- Digit characters are never the dot separator. -/
theorem digitChar_ne_dot (d : Nat) : digitChar d ≠ '.' := by
  unfold digitChar
  split <;> decide

/-- The digit token is never empty. -/
theorem locToken_ne_nil (n : Nat) : locToken n ≠ [] := by
  rw [locToken_unfold]
  by_cases hn : n < 10 <;> simp [hn]

/-- No character of the digit token is the dot separator. -/
theorem locToken_no_dot (n : Nat) : ∀ c ∈ locToken n, c ≠ '.' := by
  induction n using Nat.strong_induction_on with
  | _ n ih =>
      intro c hc
      rw [locToken_unfold] at hc
      by_cases hn : n < 10
      · rw [if_pos hn] at hc
        rcases List.mem_singleton.mp hc with rfl
        exact digitChar_ne_dot n
      · rw [if_neg hn] at hc
        rcases List.mem_append.mp hc with h | h
        · exact ih (n / 10) (Nat.div_lt_self (by omega) (by omega)) c h
        · rcases List.mem_singleton.mp h with rfl
          exact digitChar_ne_dot (n % 10)

/-- The digit token determines its value. -/
theorem locToken_inj : ∀ m n : Nat, locToken m = locToken n → m = n := by
  intro m
  induction m using Nat.strong_induction_on with
  | _ m ih =>
      intro n h
      rw [locToken_unfold m, locToken_unfold n] at h
      by_cases hm : m < 10 <;> by_cases hn : n < 10
      · rw [if_pos hm, if_pos hn] at h
        have := List.singleton_injective h
        exact (by decide : ∀ a < 10, ∀ b < 10, digitChar a = digitChar b → a = b)
          m hm n hn this
      · rw [if_pos hm, if_neg hn] at h
        have hlen := congrArg List.length h
        simp only [List.length_singleton, List.length_append] at hlen
        exact absurd (List.eq_nil_of_length_eq_zero (by omega)) (locToken_ne_nil (n / 10))
      · rw [if_neg hm, if_pos hn] at h
        have hlen := congrArg List.length h
        simp only [List.length_singleton, List.length_append] at hlen
        exact absurd (List.eq_nil_of_length_eq_zero (by omega)) (locToken_ne_nil (m / 10))
      · rw [if_neg hm, if_neg hn] at h
        have hrev := congrArg List.reverse h
        simp at hrev
        obtain ⟨hdig, htok⟩ := hrev
        have hdiv : m / 10 = n / 10 := by
          apply ih (m / 10) (Nat.div_lt_self (by omega) (by omega))
          have := congrArg List.reverse htok
          simpa using this
        have hmod : m % 10 = n % 10 :=
          (by decide : ∀ a < 10, ∀ b < 10, digitChar a = digitChar b → a = b)
            (m % 10) (Nat.mod_lt _ (by omega)) (n % 10) (Nat.mod_lt _ (by omega)) hdig
        omega

/-- Splitting at the first occurrence of a separator absent from both
initial segments is unambiguous. -/
theorem append_sep_eq (sep : Char) :
    ∀ (a1 a2 r1 r2 : List Char), (∀ x ∈ a1, x ≠ sep) → (∀ x ∈ a2, x ≠ sep) →
      a1 ++ sep :: r1 = a2 ++ sep :: r2 → a1 = a2 ∧ r1 = r2 := by
  intro a1
  induction a1 with
  | nil =>
      intro a2 r1 r2 _ h2 h
      cases a2 with
      | nil => simpa using h
      | cons b bs =>
          simp at h
          exact absurd h.1.symm (h2 b (by simp))
  | cons a as ih =>
      intro a2 r1 r2 h1 h2 h
      cases a2 with
      | nil =>
          simp at h
          exact absurd h.1 (h1 a (by simp))
      | cons b bs =>
          simp at h
          obtain ⟨hab, htail⟩ := h
          obtain ⟨has, hr⟩ := ih bs r1 r2 (fun x hx => h1 x (by simp [hx]))
            (fun x hx => h2 x (by simp [hx])) htail
          exact ⟨by rw [hab, has], hr⟩

/-- Two upload paths drawn from different values of the fresh supply are
distinct locators, whatever the client filenames were. -/
theorem file_upload_path_ne {k n : Nat} (hk : k ≠ n) (f g : String) :
    file_upload_path k f ≠ file_upload_path n g := by
  intro h
  apply hk
  apply locToken_inj
  have hd : "uploads/".data ++ (locToken k ++ '.' ::
        (splitOnChar '.' f.data).getLastD []) =
      "uploads/".data ++ (locToken n ++ '.' ::
        (splitOnChar '.' g.data).getLastD []) := by
    have := congrArg String.data h
    simpa [file_upload_path, String.mk, List.append_assoc] using this
  have hcore := List.append_cancel_left hd
  exact (append_sep_eq '.' _ _ _ _ (locToken_no_dot k) (locToken_no_dot n) hcore).1

/-- Under `LocsOK`, the locator allocated from the current fresh supply is
absent from the blob store. -/
theorem fresh_loc_not_mem (db : DB) (hlocs : LocsOK db) (f : String) :
    file_upload_path db.nextLoc f ∉ db.blobs.map Prod.fst := by
  intro hmem
  rcases List.mem_map.mp hmem with ⟨b, hb, hloc⟩
  rcases hlocs b hb with ⟨k, g, hk, hkey⟩
  exact file_upload_path_ne (by omega : k ≠ db.nextLoc) g f (by rw [← hkey, hloc])

/-- C1: ingesting content whose digest is not yet present creates and
returns a canonical record carrying the digest, `is_duplicate = false`,
`reference_count = 1`, `referenced_file` absent, stores it, and writes the
content bytes to a freshly allocated blob locator (one no existing blob
uses). -/
theorem create_new_content_canonical (db : DB) (f : UploadedFile) (now : Nat)
    (hlocs : LocsOK db)
    (hnone : findByContentHash db.records (sha256hex f.stream.data) = none) :
    (create db f now).2.content_hash = some (sha256hex f.stream.data) ∧
    (create db f now).2.is_duplicate = false ∧
    (create db f now).2.reference_count = 1 ∧
    (create db f now).2.referenced_file = none ∧
    (create db f now).1.records = db.records ++ [(create db f now).2] ∧
    (create db f now).1.blobs = db.blobs ++ [((create db f now).2.file, f.stream.data)] ∧
    (create db f now).2.file ∉ db.blobs.map Prod.fst := by
  have hhash : (compute_file_hash f.stream 8192).1 = sha256hex f.stream.data := by
    rw [compute_file_hash_eq f.stream 8192 (by decide)]
  unfold create
  rw [hhash]
  simp only [hnone]
  refine ⟨trivial, trivial, trivial, trivial, trivial, trivial, ?_⟩
  exact fresh_loc_not_mem db hlocs f.name

/-- C1 witness: the first ingest into the empty store. -/
theorem create_new_content_canonical_witness :
    (create emptyDB upA 0).2.content_hash = some (sha256hex upA.stream.data) ∧
    (create emptyDB upA 0).2.is_duplicate = false ∧
    (create emptyDB upA 0).2.reference_count = 1 ∧
    (create emptyDB upA 0).2.referenced_file = none ∧
    (create emptyDB upA 0).1.records = emptyDB.records ++ [(create emptyDB upA 0).2] ∧
    (create emptyDB upA 0).1.blobs =
      emptyDB.blobs ++ [((create emptyDB upA 0).2.file, upA.stream.data)] ∧
    (create emptyDB upA 0).2.file ∉ emptyDB.blobs.map Prod.fst :=
  create_new_content_canonical emptyDB upA 0 (by intro b hb; simp [emptyDB] at hb)
    (by decide)

/-- C2: ingesting content whose digest already has a canonical record
creates and returns a duplicate — digest absent, `is_duplicate = true`,
linked to the existing record's id, own `reference_count = 1`, sharing the
canonical's blob locator — writes no blob, and increments exactly the
existing canonical's `reference_count` by 1, leaving every other record
unchanged. -/
theorem create_duplicate_for_existing (db : DB) (f : UploadedFile) (now : Nat)
    (ex : File)
    (hids : IdsOK db)
    (hfind : findByContentHash db.records (sha256hex f.stream.data) = some ex) :
    (create db f now).2.content_hash = none ∧
    (create db f now).2.is_duplicate = true ∧
    (create db f now).2.referenced_file = some ex.id ∧
    (create db f now).2.reference_count = 1 ∧
    (create db f now).2.file = ex.file ∧
    (create db f now).1.blobs = db.blobs ∧
    (create db f now).1.records = (db.records ++ [(create db f now).2]).map
      (fun r => if r.id = ex.id then { r with reference_count := r.reference_count + 1 }
        else r) ∧
    (create db f now).2 ∈ (create db f now).1.records ∧
    { ex with reference_count := ex.reference_count + 1 } ∈ (create db f now).1.records ∧
    (∀ r ∈ db.records, r.id ≠ ex.id → r ∈ (create db f now).1.records) := by
  have hhash : (compute_file_hash f.stream 8192).1 = sha256hex f.stream.data := by
    rw [compute_file_hash_eq f.stream 8192 (by decide)]
  have hexmem : ex ∈ db.records := List.mem_of_find?_eq_some hfind
  have hexlt : ex.id < db.nextId := hids.1 ex hexmem
  unfold create createDuplicate
  rw [hhash]
  simp only [hfind]
  refine ⟨trivial, trivial, trivial, trivial, trivial, trivial, trivial, ?_, ?_, ?_⟩
  · apply List.mem_map.mpr
    refine ⟨_, List.mem_append_right _ (List.mem_singleton.mpr rfl), ?_⟩
    have : db.nextId ≠ ex.id := by omega
    simp [this]
  · apply List.mem_map.mpr
    exact ⟨ex, List.mem_append_left _ hexmem, by simp⟩
  · intro r hr hrne
    apply List.mem_map.mpr
    exact ⟨r, List.mem_append_left _ hr, by simp [hrne]⟩

/-- C2 witness: a second ingest of the same bytes into `dbOne`. -/
theorem create_duplicate_for_existing_witness :
    (create dbOne upB 1).2.content_hash = none ∧
    (create dbOne upB 1).2.is_duplicate = true ∧
    (create dbOne upB 1).2.referenced_file = some canonA.id ∧
    (create dbOne upB 1).2.reference_count = 1 ∧
    (create dbOne upB 1).2.file = canonA.file ∧
    (create dbOne upB 1).1.blobs = dbOne.blobs ∧
    (create dbOne upB 1).1.records = (dbOne.records ++ [(create dbOne upB 1).2]).map
      (fun r => if r.id = canonA.id then { r with reference_count := r.reference_count + 1 }
        else r) ∧
    (create dbOne upB 1).2 ∈ (create dbOne upB 1).1.records ∧
    { canonA with reference_count := canonA.reference_count + 1 } ∈ (create dbOne upB 1).1.records ∧
    (∀ r ∈ dbOne.records, r.id ≠ canonA.id → r ∈ (create dbOne upB 1).1.records) :=
  create_duplicate_for_existing dbOne upB 1 canonA
    (by unfold IdsOK; exact ⟨by decide, by decide⟩) (by decide)

/-- `find?` skips a block in which nothing matches. -/
theorem find?_append_of_none {p : File → Bool} {l1 l2 : List File}
    (h : l1.find? p = none) : (l1 ++ l2).find? p = l2.find? p := by
  induction l1 with
  | nil => simp
  | cons a as ih =>
      rw [List.find?_cons] at h
      rw [List.cons_append, List.find?_cons]
      cases hpa : p a with
      | true => rw [hpa] at h; exact Option.noConfusion h
      | false => rw [hpa] at h; exact ih h

/-- The canonical-insert branch of `create`, written out: when the lookup
misses, the new record and the new blob are appended and both fresh
supplies advance. -/
theorem create_shape_of_none (db : DB) (f : UploadedFile) (now : Nat)
    (hnone : findByContentHash db.records ((compute_file_hash f.stream 8192).1) = none) :
    create db f now =
      ({ records := db.records ++
          [{ id := db.nextId, file := file_upload_path db.nextLoc f.name,
             original_filename := f.name, file_type := f.content_type,
             size := f.stream.data.length, uploaded_at := now,
             content_hash := some ((compute_file_hash f.stream 8192).1),
             is_duplicate := false, reference_count := 1, referenced_file := none }],
         blobs := db.blobs ++ [(file_upload_path db.nextLoc f.name, f.stream.data)],
         nextId := db.nextId + 1, nextLoc := db.nextLoc + 1 },
       { id := db.nextId, file := file_upload_path db.nextLoc f.name,
         original_filename := f.name, file_type := f.content_type,
         size := f.stream.data.length, uploaded_at := now,
         content_hash := some ((compute_file_hash f.stream 8192).1),
         is_duplicate := false, reference_count := 1, referenced_file := none }) := by
  unfold create
  simp only [hnone]

/-- C3 counterexample: in the concrete race on content `b"hi"` (`dbOne` is
the state after the winning concurrent ingest), the `IntegrityError`
fallback succeeds but does not discard the blob written by the failed
canonical insert — the blob store afterwards still holds the orphaned
locator `uploads/1.txt`, which no record references, refuting the claim
that the local blob write is discarded. -/
theorem conflict_blob_not_discarded :
    (createOnConflict dbOne upB 1).map (fun p => p.1.blobs.map Prod.fst) ≠
      some (dbOne.blobs.map Prod.fst) ∧
    ∃ p, createOnConflict dbOne upB 1 = some p ∧
      p.1.blobs.map Prod.fst = ["uploads/0.txt", "uploads/1.txt"] ∧
      (∀ r ∈ p.1.records, r.file ≠ "uploads/1.txt") := by decide

/-- C3 (amended): when the canonical insert loses the uniqueness race, the
fallback re-runs the lookup against the now-visible canonical record,
creates a duplicate linked to it, and returns that duplicate successfully —
the conflict is never surfaced to the caller — but the local blob write is
not discarded: the orphaned blob stays in the store at the locator the
failed insert allocated. -/
theorem conflict_recovery (db : DB) (f g : UploadedFile) (n1 n2 : Nat)
    (hnone : findByContentHash db.records (sha256hex f.stream.data) = none)
    (hsame : f.stream.data = g.stream.data) :
    (∃ p, createOnConflict (create db g n2).1 f n1 = some p) ∧
    ∀ db2 rec, createOnConflict (create db g n2).1 f n1 = some (db2, rec) →
      rec.is_duplicate = true ∧
      rec.content_hash = none ∧
      rec.referenced_file = some (create db g n2).2.id ∧
      rec.reference_count = 1 ∧
      rec.file = (create db g n2).2.file ∧
      rec ∈ db2.records ∧
      { (create db g n2).2 with
          reference_count := (create db g n2).2.reference_count + 1 } ∈ db2.records ∧
      db2.blobs = (create db g n2).1.blobs ++
        [(file_upload_path (create db g n2).1.nextLoc f.name, f.stream.data)] := by
  have hhash_f : (compute_file_hash f.stream 8192).1 = sha256hex f.stream.data := by
    rw [compute_file_hash_eq f.stream 8192 (by decide)]
  have hhash_g : (compute_file_hash g.stream 8192).1 = sha256hex f.stream.data := by
    rw [compute_file_hash_eq g.stream 8192 (by decide), hsame]
  have hg := create_shape_of_none db g n2 (by rw [hhash_g]; exact hnone)
  rw [hhash_g] at hg
  have hnone' : List.find? (fun r => r.content_hash == some (sha256hex f.stream.data))
      db.records = none := hnone
  have hfind2 : findByContentHash (db.records ++
      [{ id := db.nextId, file := file_upload_path db.nextLoc g.name,
         original_filename := g.name, file_type := g.content_type,
         size := g.stream.data.length, uploaded_at := n2,
         content_hash := some (sha256hex f.stream.data),
         is_duplicate := false, reference_count := 1, referenced_file := none }])
      (sha256hex f.stream.data) =
      some { id := db.nextId, file := file_upload_path db.nextLoc g.name,
             original_filename := g.name, file_type := g.content_type,
             size := g.stream.data.length, uploaded_at := n2,
             content_hash := some (sha256hex f.stream.data),
             is_duplicate := false, reference_count := 1, referenced_file := none } := by
    unfold findByContentHash
    rw [find?_append_of_none hnone']
    simp
  have hstep : ∀ z, createOnConflict (create db g n2).1 f n1 = z →
      z = some (createDuplicate
        { records := db.records ++
            [{ id := db.nextId, file := file_upload_path db.nextLoc g.name,
               original_filename := g.name, file_type := g.content_type,
               size := g.stream.data.length, uploaded_at := n2,
               content_hash := some (sha256hex f.stream.data),
               is_duplicate := false, reference_count := 1, referenced_file := none }],
          blobs := (db.blobs ++ [(file_upload_path db.nextLoc g.name, g.stream.data)]) ++
            [(file_upload_path (db.nextLoc + 1) f.name, f.stream.data)],
          nextId := db.nextId + 1, nextLoc := db.nextLoc + 1 + 1 }
        { id := db.nextId, file := file_upload_path db.nextLoc g.name,
          original_filename := g.name, file_type := g.content_type,
          size := g.stream.data.length, uploaded_at := n2,
          content_hash := some (sha256hex f.stream.data),
          is_duplicate := false, reference_count := 1, referenced_file := none }
        f n1) := by
    intro z hz
    rw [← hz, hg]
    unfold createOnConflict
    rw [hhash_f]
    simp only [hfind2]
  constructor
  · exact ⟨_, hstep _ rfl⟩
  · intro db2 rec h
    have h2 := (hstep _ h).symm
    rw [Option.some.injEq] at h2
    have hdb2 := congrArg Prod.fst h2
    have hrec := congrArg Prod.snd h2
    subst hdb2
    subst hrec
    rw [hg]
    simp only [createDuplicate]
    refine ⟨trivial, trivial, trivial, trivial, trivial, ?_, ?_, trivial⟩
    · apply List.mem_map.mpr
      refine ⟨_, List.mem_append_right _ (List.mem_singleton.mpr rfl), ?_⟩
      have hne : db.nextId + 1 ≠ db.nextId := by omega
      simp [hne]
    · apply List.mem_map.mpr
      refine ⟨_, List.mem_append_left _
        (List.mem_append_right _ (List.mem_singleton.mpr rfl)), by simp⟩

/-- C3 (amended) witness: the concrete race of `conflict_blob_not_discarded`
run through the general theorem. -/
theorem conflict_recovery_witness :
    (∃ p, createOnConflict (create emptyDB upA 0).1 upB 1 = some p) ∧
    ∀ db2 rec, createOnConflict (create emptyDB upA 0).1 upB 1 = some (db2, rec) →
      rec.is_duplicate = true ∧
      rec.content_hash = none ∧
      rec.referenced_file = some (create emptyDB upA 0).2.id ∧
      rec.reference_count = 1 ∧
      rec.file = (create emptyDB upA 0).2.file ∧
      rec ∈ db2.records ∧
      { (create emptyDB upA 0).2 with
          reference_count := (create emptyDB upA 0).2.reference_count + 1 } ∈ db2.records ∧
      db2.blobs = (create emptyDB upA 0).1.blobs ++
        [(file_upload_path (create emptyDB upA 0).1.nextLoc upB.name, upB.stream.data)] :=
  conflict_recovery emptyDB upB upA 1 0 (by decide) (by decide)

/-- C5: deleting a canonical record whose `reference_count` exceeds 1 is
rejected — the raise that realises the spec's ProtectedError, surfaced as a
permission failure — and the returned state is the input state: neither the
record nor any blob changes. -/
theorem destroy_protected_rejects (db : DB) (pk : Nat) (r : File)
    (hfind : db.records.find? (fun x => x.id == pk) = some r)
    (hdup : r.is_duplicate = false)
    (hrc : 1 < r.reference_count) :
    destroy db pk = (db, DestroyResult.permissionDenied) := by
  unfold destroy
  rw [hfind]
  simp [hdup, hrc]

/-- C5 witness: the canonical record of `dbTwo` has `reference_count = 2`
and its deletion is rejected without any state change. -/
theorem destroy_protected_rejects_witness :
    destroy dbTwo 0 = (dbTwo, DestroyResult.permissionDenied) :=
  destroy_protected_rejects dbTwo 0 canonTwo (by decide) (by decide) (by decide)

/-- C6: deleting a duplicate record always succeeds, decrements the
referenced canonical's `reference_count` by exactly 1, removes only the
duplicate row, and leaves the blob store untouched. -/
theorem destroy_duplicate_spec (db : DB) (pk cid : Nat) (d c : File)
    (hfind : db.records.find? (fun x => x.id == pk) = some d)
    (hdup : d.is_duplicate = true)
    (href : d.referenced_file = some cid)
    (hc : c ∈ db.records) (hcid : c.id = cid)
    (hnoref : ∀ r ∈ db.records, r.referenced_file ≠ some pk)
    (hrc : 1 ≤ c.reference_count)
    (hne : cid ≠ pk) :
    destroy db pk =
      ({ db with records :=
          (db.records.map (fun r =>
            if r.id = cid then { r with reference_count := r.reference_count - 1 }
            else r)).filter (fun r => r.id ≠ pk) }, DestroyResult.noContent) ∧
    (destroy db pk).1.blobs = db.blobs ∧
    { c with reference_count := c.reference_count - 1 } ∈ (destroy db pk).1.records ∧
    c.reference_count - 1 + 1 = c.reference_count ∧
    (∀ r ∈ db.records, r.id ≠ cid → r.id ≠ pk → r ∈ (destroy db pk).1.records) ∧
    (∀ r ∈ (destroy db pk).1.records, r.id ≠ pk) := by
  have hmain : destroy db pk =
      ({ db with records :=
          (db.records.map (fun r =>
            if r.id = cid then { r with reference_count := r.reference_count - 1 }
            else r)).filter (fun r => r.id ≠ pk) }, DestroyResult.noContent) := by
    unfold destroy
    rw [hfind]
    simp only [hdup, if_pos, href]
    have hany : ((db.records.map (fun r =>
        if r.id = cid then { r with reference_count := r.reference_count - 1 }
        else r)).any (fun r => r.referenced_file == some pk && r.id != pk)) = false := by
      rw [List.any_eq_false]
      intro x hx
      rcases List.mem_map.mp hx with ⟨y, hy, hxy⟩
      have hxr : x.referenced_file = y.referenced_file := by
        subst hxy
        by_cases hid : y.id = cid <;> simp [hid]
      have : x.referenced_file ≠ some pk := by rw [hxr]; exact hnoref y hy
      simp [this]
    unfold deleteRow
    rw [hany]
    simp
  refine ⟨hmain, ?_, ?_, ?_, ?_, ?_⟩
  · rw [hmain]
  · rw [hmain]
    apply List.mem_filter.mpr
    constructor
    · apply List.mem_map.mpr
      exact ⟨c, hc, by simp [hcid]⟩
    · simpa [hcid] using hne
  · omega
  · intro r hr hrcid hrpk
    rw [hmain]
    apply List.mem_filter.mpr
    constructor
    · apply List.mem_map.mpr
      exact ⟨r, hr, by simp [hrcid]⟩
    · simpa using hrpk
  · intro r hr
    rw [hmain] at hr
    have := (List.mem_filter.mp hr).2
    simpa using this

/-- C6 witness: deleting the duplicate of `dbTwo`. -/
theorem destroy_duplicate_spec_witness :
    destroy dbTwo 1 =
      ({ dbTwo with records :=
          (dbTwo.records.map (fun r =>
            if r.id = 0 then { r with reference_count := r.reference_count - 1 }
            else r)).filter (fun r => r.id ≠ 1) }, DestroyResult.noContent) ∧
    (destroy dbTwo 1).1.blobs = dbTwo.blobs ∧
    { canonTwo with reference_count := canonTwo.reference_count - 1 } ∈ (destroy dbTwo 1).1.records ∧
    canonTwo.reference_count - 1 + 1 = canonTwo.reference_count ∧
    (∀ r ∈ dbTwo.records, r.id ≠ 0 → r.id ≠ 1 → r ∈ (destroy dbTwo 1).1.records) ∧
    (∀ r ∈ (destroy dbTwo 1).1.records, r.id ≠ 1) :=
  destroy_duplicate_spec dbTwo 1 0 dupB canonTwo (by decide) (by decide) (by decide)
    (by decide) (by decide) (by decide) (by decide) (by decide)

/-- C7: deleting a canonical record with `reference_count ≤ 1` succeeds,
removes the blob from the store and the row from the table, and afterwards
neither the record id nor its blob locator is retrievable. -/
theorem destroy_canonical_free_spec (db : DB) (pk : Nat) (r : File)
    (hfind : db.records.find? (fun x => x.id == pk) = some r)
    (hdup : r.is_duplicate = false)
    (hrc : r.reference_count ≤ 1)
    (hfile : r.file ≠ "")
    (hnoref : ∀ x ∈ db.records, x.referenced_file ≠ some pk) :
    destroy db pk =
      ({ db with records := db.records.filter (fun x => x.id ≠ pk),
                 blobs := db.blobs.filter (fun b => b.1 ≠ r.file) },
        DestroyResult.noContent) ∧
    (∀ x ∈ (destroy db pk).1.records, x.id ≠ pk) ∧
    (∀ b ∈ (destroy db pk).1.blobs, b.1 ≠ r.file) := by
  have hany : (db.records.any (fun x => x.referenced_file == some pk && x.id != pk)) = false := by
    rw [List.any_eq_false]
    intro x hx
    have := hnoref x hx
    simp [this]
  have hmain : destroy db pk =
      ({ db with records := db.records.filter (fun x => x.id ≠ pk),
                 blobs := db.blobs.filter (fun b => b.1 ≠ r.file) },
        DestroyResult.noContent) := by
    unfold destroy
    rw [hfind]
    have hnlt : ¬(1 < r.reference_count) := by omega
    simp only [hdup, if_neg, Bool.false_eq_true, if_false, hnlt, if_pos, hfile, ite_true]
    unfold deleteRow
    rw [hany]
    simp [hfile]
  refine ⟨hmain, ?_, ?_⟩
  · intro x hx
    rw [hmain] at hx
    have := (List.mem_filter.mp hx).2
    simpa using this
  · intro b hb
    rw [hmain] at hb
    have := (List.mem_filter.mp hb).2
    simpa using this

/-- C7 witness: deleting the sole canonical record of `dbOne`. -/
theorem destroy_canonical_free_spec_witness :
    destroy dbOne 0 =
      ({ dbOne with records := dbOne.records.filter (fun x => x.id ≠ 0),
                    blobs := dbOne.blobs.filter (fun b => b.1 ≠ canonA.file) },
        DestroyResult.noContent) ∧
    (∀ x ∈ (destroy dbOne 0).1.records, x.id ≠ 0) ∧
    (∀ b ∈ (destroy dbOne 0).1.blobs, b.1 ≠ canonA.file) :=
  destroy_canonical_free_spec dbOne 0 canonA (by decide) (by decide) (by decide)
    (by decide) (by decide)

/-! ### Listing: ordering and filter validation -/

/-- Membership in an insertion step. -/
theorem mem_insertDesc (r x : File) (l : List File) :
    x ∈ insertDesc r l ↔ x = r ∨ x ∈ l := by
  induction l with
  | nil => simp [insertDesc]
  | cons a as ih =>
      simp only [insertDesc]
      by_cases h : a.uploaded_at ≤ r.uploaded_at
      · rw [if_pos h]
        simp
      · rw [if_neg h]
        simp [ih]
        tauto

/-- Inserting into a descending-sorted list keeps it sorted. -/
theorem pairwise_insertDesc (r : File) (l : List File)
    (h : l.Pairwise (fun a b => b.uploaded_at ≤ a.uploaded_at)) :
    (insertDesc r l).Pairwise (fun a b => b.uploaded_at ≤ a.uploaded_at) := by
  induction l with
  | nil => simp [insertDesc]
  | cons a as ih =>
      rcases List.pairwise_cons.mp h with ⟨ha, has⟩
      simp only [insertDesc]
      by_cases hle : a.uploaded_at ≤ r.uploaded_at
      · rw [if_pos hle]
        apply List.pairwise_cons.mpr
        refine ⟨?_, h⟩
        intro y hy
        rcases List.mem_cons.mp hy with rfl | hy'
        · exact hle
        · exact le_trans (ha y hy') hle
      · rw [if_neg hle]
        apply List.pairwise_cons.mpr
        refine ⟨?_, ih has⟩
        intro y hy
        rcases (mem_insertDesc r y as).mp hy with rfl | hy'
        · omega
        · exact ha y hy'

/-- The default ordering really sorts newest first. -/
theorem pairwise_orderBy (rs : List File) :
    (orderByUploadedAtDesc rs).Pairwise (fun a b => b.uploaded_at ≤ a.uploaded_at) := by
  induction rs with
  | nil => simp [orderByUploadedAtDesc]
  | cons a as ih => exact pairwise_insertDesc a _ ih

/-- The search filter only drops elements. -/
theorem applySearch_sublist (params : QueryParams) (qs : List File) :
    List.Sublist (applySearch params qs) qs := by
  unfold applySearch
  rcases params.search with _ | s
  · exact List.Sublist.refl qs
  · dsimp only
    split
    · exact List.filter_sublist qs
    · exact List.Sublist.refl qs

/-- The type filter only drops elements. -/
theorem applyFileType_sublist (params : QueryParams) (qs : List File) :
    List.Sublist (applyFileType params qs) qs := by
  unfold applyFileType
  rcases params.file_type with _ | s
  · exact List.Sublist.refl qs
  · dsimp only
    split
    · exact List.filter_sublist qs
    · exact List.Sublist.refl qs

/-- A successful size-min stage only drops elements. -/
theorem applySizeMin_ok_sublist (params : QueryParams) (qs out : List File)
    (h : applySizeMin params qs = .ok out) : List.Sublist out qs := by
  unfold applySizeMin at h
  rcases hs : params.size_min with _ | s
  · rw [hs] at h
    injection h with h'
    subst h'
    exact List.Sublist.refl _
  · rw [hs] at h
    dsimp only at h
    by_cases hsd : s = ""
    · rw [if_pos hsd] at h
      injection h with h'
      subst h'
      exact List.Sublist.refl _
    · rw [if_neg hsd] at h
      rcases hp : pyInt s with _ | n
      · rw [hp] at h
        exact Except.noConfusion h
      · rw [hp] at h
        injection h with h'
        subst h'
        exact List.filter_sublist qs

/-- A successful size-max stage only drops elements. -/
theorem applySizeMax_ok_sublist (params : QueryParams) (qs out : List File)
    (h : applySizeMax params qs = .ok out) : List.Sublist out qs := by
  unfold applySizeMax at h
  rcases hs : params.size_max with _ | s
  · rw [hs] at h
    injection h with h'
    subst h'
    exact List.Sublist.refl _
  · rw [hs] at h
    dsimp only at h
    by_cases hsd : s = ""
    · rw [if_pos hsd] at h
      injection h with h'
      subst h'
      exact List.Sublist.refl _
    · rw [if_neg hsd] at h
      rcases hp : pyInt s with _ | n
      · rw [hp] at h
        exact Except.noConfusion h
      · rw [hp] at h
        injection h with h'
        subst h'
        exact List.filter_sublist qs

/-- A successful uploaded-after stage only drops elements. -/
theorem applyUploadedAfter_ok_sublist (params : QueryParams) (qs out : List File)
    (h : applyUploadedAfter params qs = .ok out) : List.Sublist out qs := by
  unfold applyUploadedAfter at h
  rcases hs : params.uploaded_after with _ | s
  · rw [hs] at h
    injection h with h'
    subst h'
    exact List.Sublist.refl _
  · rw [hs] at h
    dsimp only at h
    by_cases hsd : s = ""
    · rw [if_pos hsd] at h
      injection h with h'
      subst h'
      exact List.Sublist.refl _
    · rw [if_neg hsd] at h
      rcases hdt : parse_datetime s with _ | k
      · rw [hdt] at h
        rcases hd : parse_date s with _ | ymd
        · rw [hd] at h
          exact Except.noConfusion h
        · rw [hd] at h
          obtain ⟨y, mo, d⟩ := ymd
          injection h with h'
          subst h'
          exact List.filter_sublist qs
      · rw [hdt] at h
        injection h with h'
        subst h'
        exact List.filter_sublist qs

/-- A successful uploaded-before stage only drops elements. -/
theorem applyUploadedBefore_ok_sublist (params : QueryParams) (qs out : List File)
    (h : applyUploadedBefore params qs = .ok out) : List.Sublist out qs := by
  unfold applyUploadedBefore at h
  rcases hs : params.uploaded_before with _ | s
  · rw [hs] at h
    injection h with h'
    subst h'
    exact List.Sublist.refl _
  · rw [hs] at h
    dsimp only at h
    by_cases hsd : s = ""
    · rw [if_pos hsd] at h
      injection h with h'
      subst h'
      exact List.Sublist.refl _
    · rw [if_neg hsd] at h
      rcases hdt : parse_datetime s with _ | k
      · rw [hdt] at h
        rcases hd : parse_date s with _ | ymd
        · rw [hd] at h
          exact Except.noConfusion h
        · rw [hd] at h
          obtain ⟨y, mo, d⟩ := ymd
          injection h with h'
          subst h'
          exact List.filter_sublist qs
      · rw [hdt] at h
        injection h with h'
        subst h'
        exact List.filter_sublist qs

/-- Splitting a successful `Except` bind. -/
theorem except_bind_ok {α β : Type} {x : Except ValidationErr α}
    {f : α → Except ValidationErr β} {b : β}
    (h : (x >>= f) = .ok b) : ∃ a, x = .ok a ∧ f a = .ok b := by
  cases x with
  | error e => exact Except.noConfusion h
  | ok a => exact ⟨a, rfl, h⟩

/-- A bind on a raised `ValidationError` propagates the error. -/
theorem vbind_error {α β : Type} (e : ValidationErr)
    (f : α → Except ValidationErr β) :
    ((Except.error e : Except ValidationErr α) >>= f) = Except.error e := rfl

/-- A bind on a successful stage continues with its result. -/
theorem vbind_ok {α β : Type} (a : α) (f : α → Except ValidationErr β) :
    ((Except.ok a : Except ValidationErr α) >>= f) = f a := rfl

/-- C10: every successful listing, whatever filters were supplied, is
ordered by `uploaded_at` descending (newest first). -/
theorem get_queryset_newest_first (db : DB) (params : QueryParams)
    (l : List File) (h : get_queryset db params = .ok l) : newestFirst l := by
  unfold get_queryset at h
  obtain ⟨l3, h3, h⟩ := except_bind_ok h
  obtain ⟨l4, h4, h⟩ := except_bind_ok h
  obtain ⟨l5, h5, h⟩ := except_bind_ok h
  have s0 : List.Sublist (applySearch params (orderByUploadedAtDesc db.records))
      (orderByUploadedAtDesc db.records) := applySearch_sublist _ _
  have s1 : List.Sublist
      (applyFileType params (applySearch params (orderByUploadedAtDesc db.records)))
      (applySearch params (orderByUploadedAtDesc db.records)) := applyFileType_sublist _ _
  have s2 := applySizeMin_ok_sublist _ _ _ h3
  have s3 := applySizeMax_ok_sublist _ _ _ h4
  have s4 := applyUploadedAfter_ok_sublist _ _ _ h5
  have s5 := applyUploadedBefore_ok_sublist _ _ _ h
  exact List.Pairwise.sublist
    (((((s5.trans s4).trans s3).trans s2).trans s1).trans s0)
    (pairwise_orderBy db.records)

/-- C10 witness: an unfiltered listing of `dbTimes` comes back newest
first. -/
theorem get_queryset_newest_first_witness :
    newestFirst
      [⟨1, "uploads/1.txt", "b.txt", "text/plain", 2, 9, some "h1", false, 1, none⟩,
       ⟨0, "uploads/0.txt", "a.txt", "text/plain", 2, 5, some "h0", false, 1, none⟩] :=
  get_queryset_newest_first dbTimes ⟨none, none, none, none, none, none⟩ _ rfl

/-- A malformed size-min parameter raises naming `size_min`. -/
theorem applySizeMin_error_of_bad (params : QueryParams) (qs : List File)
    (h : badSizeParam params.size_min) :
    applySizeMin params qs = .error ⟨"size_min", "Must be a valid integer"⟩ := by
  obtain ⟨s, hs, hne, hp⟩ := h
  unfold applySizeMin
  rw [hs]
  dsimp only
  rw [if_neg hne, hp]

/-- A well-formed (or absent) size-min parameter never raises. -/
theorem applySizeMin_ok_of_good (params : QueryParams) (qs : List File)
    (h : ¬ badSizeParam params.size_min) :
    ∃ out, applySizeMin params qs = .ok out := by
  rcases hr : applySizeMin params qs with e | out
  · exfalso
    apply h
    unfold applySizeMin at hr
    rcases hs : params.size_min with _ | s
    · rw [hs] at hr
      exact Except.noConfusion hr
    · rw [hs] at hr
      dsimp only at hr
      by_cases hse : s = ""
      · rw [if_pos hse] at hr
        exact Except.noConfusion hr
      · rw [if_neg hse] at hr
        rcases hp : pyInt s with _ | n
        · exact ⟨s, rfl, hse, hp⟩
        · rw [hp] at hr
          exact Except.noConfusion hr
  · exact ⟨out, rfl⟩

/-- A malformed size-max parameter raises naming `size_max`. -/
theorem applySizeMax_error_of_bad (params : QueryParams) (qs : List File)
    (h : badSizeParam params.size_max) :
    applySizeMax params qs = .error ⟨"size_max", "Must be a valid integer"⟩ := by
  obtain ⟨s, hs, hne, hp⟩ := h
  unfold applySizeMax
  rw [hs]
  dsimp only
  rw [if_neg hne, hp]

/-- A well-formed (or absent) size-max parameter never raises. -/
theorem applySizeMax_ok_of_good (params : QueryParams) (qs : List File)
    (h : ¬ badSizeParam params.size_max) :
    ∃ out, applySizeMax params qs = .ok out := by
  rcases hr : applySizeMax params qs with e | out
  · exfalso
    apply h
    unfold applySizeMax at hr
    rcases hs : params.size_max with _ | s
    · rw [hs] at hr
      exact Except.noConfusion hr
    · rw [hs] at hr
      dsimp only at hr
      by_cases hse : s = ""
      · rw [if_pos hse] at hr
        exact Except.noConfusion hr
      · rw [if_neg hse] at hr
        rcases hp : pyInt s with _ | n
        · exact ⟨s, rfl, hse, hp⟩
        · rw [hp] at hr
          exact Except.noConfusion hr
  · exact ⟨out, rfl⟩

/-- A malformed uploaded-after parameter raises naming `uploaded_after`. -/
theorem applyUploadedAfter_error_of_bad (params : QueryParams) (qs : List File)
    (h : badDateParam params.uploaded_after) :
    applyUploadedAfter params qs =
      .error ⟨"uploaded_after", "Must be a valid ISO 8601 date (YYYY-MM-DD)"⟩ := by
  obtain ⟨s, hs, hne, hdt, hd⟩ := h
  unfold applyUploadedAfter
  rw [hs]
  dsimp only
  rw [if_neg hne, hdt, hd]

/-- A well-formed (or absent) uploaded-after parameter never raises. -/
theorem applyUploadedAfter_ok_of_good (params : QueryParams) (qs : List File)
    (h : ¬ badDateParam params.uploaded_after) :
    ∃ out, applyUploadedAfter params qs = .ok out := by
  rcases hr : applyUploadedAfter params qs with e | out
  · exfalso
    apply h
    unfold applyUploadedAfter at hr
    rcases hs : params.uploaded_after with _ | s
    · rw [hs] at hr
      exact Except.noConfusion hr
    · rw [hs] at hr
      dsimp only at hr
      by_cases hse : s = ""
      · rw [if_pos hse] at hr
        exact Except.noConfusion hr
      · rw [if_neg hse] at hr
        rcases hdt : parse_datetime s with _ | k
        · rw [hdt] at hr
          rcases hd : parse_date s with _ | ymd
          · exact ⟨s, rfl, hse, hdt, hd⟩
          · rw [hd] at hr
            obtain ⟨y, mo, d⟩ := ymd
            exact Except.noConfusion hr
        · rw [hdt] at hr
          exact Except.noConfusion hr
  · exact ⟨out, rfl⟩

/-- A malformed uploaded-before parameter raises naming `uploaded_before`. -/
theorem applyUploadedBefore_error_of_bad (params : QueryParams) (qs : List File)
    (h : badDateParam params.uploaded_before) :
    applyUploadedBefore params qs =
      .error ⟨"uploaded_before", "Must be a valid ISO 8601 date (YYYY-MM-DD)"⟩ := by
  obtain ⟨s, hs, hne, hdt, hd⟩ := h
  unfold applyUploadedBefore
  rw [hs]
  dsimp only
  rw [if_neg hne, hdt, hd]

/-- C9: a listing request with any malformed typed filter — a truthy,
non-integer size bound or a truthy date bound both date parsers reject —
fails with a `ValidationError` naming a field that is indeed malformed,
carrying the human-readable reason the view attaches; the malformed filter
is never silently ignored. -/
theorem get_queryset_rejects_malformed (db : DB) (params : QueryParams)
    (h : badSizeParam params.size_min ∨ badSizeParam params.size_max ∨
         badDateParam params.uploaded_after ∨ badDateParam params.uploaded_before) :
    ∃ e, get_queryset db params = .error e ∧
      ((e = ⟨"size_min", "Must be a valid integer"⟩ ∧
          badSizeParam params.size_min) ∨
       (e = ⟨"size_max", "Must be a valid integer"⟩ ∧
          badSizeParam params.size_max) ∨
       (e = ⟨"uploaded_after", "Must be a valid ISO 8601 date (YYYY-MM-DD)"⟩ ∧
          badDateParam params.uploaded_after) ∨
       (e = ⟨"uploaded_before", "Must be a valid ISO 8601 date (YYYY-MM-DD)"⟩ ∧
          badDateParam params.uploaded_before)) := by
  unfold get_queryset
  dsimp only
  by_cases h1 : badSizeParam params.size_min
  · refine ⟨_, ?_, Or.inl ⟨rfl, h1⟩⟩
    rw [applySizeMin_error_of_bad params _ h1, vbind_error]
  · obtain ⟨o1, ho1⟩ := applySizeMin_ok_of_good params
      (applyFileType params (applySearch params (orderByUploadedAtDesc db.records))) h1
    simp only [ho1, vbind_ok]
    by_cases h2 : badSizeParam params.size_max
    · refine ⟨_, ?_, Or.inr (Or.inl ⟨rfl, h2⟩)⟩
      rw [applySizeMax_error_of_bad params _ h2, vbind_error]
    · obtain ⟨o2, ho2⟩ := applySizeMax_ok_of_good params o1 h2
      simp only [ho2, vbind_ok]
      by_cases h3 : badDateParam params.uploaded_after
      · refine ⟨_, ?_, Or.inr (Or.inr (Or.inl ⟨rfl, h3⟩))⟩
        rw [applyUploadedAfter_error_of_bad params _ h3, vbind_error]
      · obtain ⟨o3, ho3⟩ := applyUploadedAfter_ok_of_good params o2 h3
        simp only [ho3, vbind_ok]
        by_cases h4 : badDateParam params.uploaded_before
        · refine ⟨_, ?_, Or.inr (Or.inr (Or.inr ⟨rfl, h4⟩))⟩
          rw [applyUploadedBefore_error_of_bad params _ h4]
        · rcases h with h | h | h | h
          · exact absurd h h1
          · exact absurd h h2
          · exact absurd h h3
          · exact absurd h h4

/-- C9 witness: `size_min="abc"` is rejected naming `size_min`. -/
theorem get_queryset_rejects_malformed_witness :
    ∃ e, get_queryset emptyDB ⟨none, none, some "abc", none, none, none⟩ = .error e ∧
      ((e = ⟨"size_min", "Must be a valid integer"⟩ ∧
          badSizeParam (QueryParams.size_min ⟨none, none, some "abc", none, none, none⟩)) ∨
       (e = ⟨"size_max", "Must be a valid integer"⟩ ∧
          badSizeParam (QueryParams.size_max ⟨none, none, some "abc", none, none, none⟩)) ∨
       (e = ⟨"uploaded_after", "Must be a valid ISO 8601 date (YYYY-MM-DD)"⟩ ∧
          badDateParam (QueryParams.uploaded_after ⟨none, none, some "abc", none, none, none⟩)) ∨
       (e = ⟨"uploaded_before", "Must be a valid ISO 8601 date (YYYY-MM-DD)"⟩ ∧
          badDateParam (QueryParams.uploaded_before ⟨none, none, some "abc", none, none, none⟩))) :=
  get_queryset_rejects_malformed emptyDB ⟨none, none, some "abc", none, none, none⟩
    (Or.inl ⟨"abc", rfl, by decide, by decide⟩)

/-! ### The reference-count invariant (C4) -/

/-- Two records of a table with pairwise-distinct ids that share an id are
the same record. -/
theorem id_inj (l : List File) (hnodup : (l.map (fun r => r.id)).Nodup)
    {x y : File} (hx : x ∈ l) (hy : y ∈ l) (h : x.id = y.id) : x = y :=
  List.inj_on_of_nodup_map hnodup hx hy h

/-- A member of a table with pairwise-distinct ids splits the table into a
part before and a part after, neither containing its id. -/
theorem exists_split_unique_id (l : List File)
    (hnodup : (l.map (fun r => r.id)).Nodup) (d : File) (hd : d ∈ l) :
    ∃ l1 l2, l = l1 ++ d :: l2 ∧
      (∀ x ∈ l1, x.id ≠ d.id) ∧ (∀ x ∈ l2, x.id ≠ d.id) := by
  obtain ⟨l1, l2, rfl⟩ := List.append_of_mem hd
  rw [List.map_append, List.map_cons] at hnodup
  have hmid := List.nodup_middle.mp hnodup
  rcases List.nodup_cons.mp hmid with ⟨hnotin, _⟩
  refine ⟨l1, l2, rfl, ?_, ?_⟩
  · intro x hx heq
    exact hnotin (List.mem_append.mpr (Or.inl (List.mem_map.mpr ⟨x, hx, heq⟩)))
  · intro x hx heq
    exact hnotin (List.mem_append.mpr (Or.inr (List.mem_map.mpr ⟨x, hx, heq⟩)))

/-- Counting after removing the unique record with a given id. -/
theorem countP_split_by_id (l1 l2 : List File) (d : File) (p : File → Bool)
    (h1 : ∀ x ∈ l1, x.id ≠ d.id) (h2 : ∀ x ∈ l2, x.id ≠ d.id) :
    (l1 ++ d :: l2).countP p =
      ((l1 ++ d :: l2).filter (fun r => r.id ≠ d.id)).countP p +
        if p d then 1 else 0 := by
  have hf1 : l1.filter (fun r => r.id ≠ d.id) = l1 :=
    List.filter_eq_self.mpr (fun a ha => by simpa using h1 a ha)
  have hf2 : l2.filter (fun r => r.id ≠ d.id) = l2 :=
    List.filter_eq_self.mpr (fun a ha => by simpa using h2 a ha)
  have hfil : (l1 ++ d :: l2).filter (fun r => r.id ≠ d.id) = l1 ++ l2 := by
    rw [List.filter_append, List.filter_cons, if_neg (by simp), hf1, hf2]
  rw [hfil, List.countP_append, List.countP_append, List.countP_cons]
  omega

/-- `dupCount` distributes over append. -/
theorem dupCount_append (l1 l2 : List File) (cid : Nat) :
    dupCount (l1 ++ l2) cid = dupCount l1 cid + dupCount l2 cid :=
  List.countP_append _ _ _

/-- `dupCount` ignores mutations that keep the duplicate flag and the
reference target. -/
theorem dupCount_map_invariant (l : List File) (g : File → File)
    (hdup : ∀ r, (g r).is_duplicate = r.is_duplicate)
    (href : ∀ r, (g r).referenced_file = r.referenced_file) (cid : Nat) :
    dupCount (l.map g) cid = dupCount l cid := by
  unfold dupCount
  rw [List.countP_map]
  apply List.countP_congr
  intro x hx
  simp [Function.comp, hdup, href]

/-- Removing the unique record with a given id adjusts `dupCount` by that
record's own contribution. -/
theorem dupCount_remove_id (l : List File)
    (hnodup : (l.map (fun r => r.id)).Nodup)
    (d : File) (hd : d ∈ l) (cid : Nat) :
    dupCount l cid = dupCount (l.filter (fun r => r.id ≠ d.id)) cid +
      if d.is_duplicate && d.referenced_file == some cid then 1 else 0 := by
  obtain ⟨l1, l2, hsplit, h1, h2⟩ := exists_split_unique_id l hnodup d hd
  subst hsplit
  exact countP_split_by_id l1 l2 d _ h1 h2

/-- The empty store satisfies the invariant. -/
theorem inv_init : Inv ⟨[], [], 0, 0⟩ := by
  refine ⟨?_, ?_, ?_, ?_⟩
  · intro r hr
    simp at hr
  · simp
  · intro r hr
    simp at hr
  · intro r hr
    simp at hr

/-- The duplicate-creation block preserves the invariant when the looked-up
record is a live canonical one. -/
theorem inv_createDuplicate (db : DB) (ex : File) (f : UploadedFile) (now : Nat)
    (hinv : Inv db) (hmem : ex ∈ db.records) (hcanon : ex.is_duplicate = false) :
    Inv (createDuplicate db ex f now).1 := by
  obtain ⟨idsLt, idsNodup, dupFields, canonFields⟩ := hinv
  have hexlt : ex.id < db.nextId := idsLt ex hmem
  unfold createDuplicate
  dsimp only
  refine ⟨?_, ?_, ?_, ?_⟩
  · -- ids bounded
    intro r' hr'
    rcases List.mem_map.mp hr' with ⟨r, hr, rfl⟩
    rcases List.mem_append.mp hr with hrl | hrd
    · have := idsLt r hrl
      by_cases hid : r.id = ex.id <;> simp [hid] <;> omega
    · rcases List.mem_singleton.mp hrd with rfl
      have hne : db.nextId ≠ ex.id := by omega
      simp [hne]
  · -- ids distinct
    rw [List.map_map]
    have hcomp : ((fun r => r.id) ∘ fun r =>
        if r.id = ex.id then { r with reference_count := r.reference_count + 1 }
        else r) = (fun r : File => r.id) := by
      funext r
      by_cases h : r.id = ex.id <;> simp [h]
    rw [hcomp, List.map_append]
    rw [List.nodup_append]
    refine ⟨idsNodup, by simp, ?_⟩
    intro a ha hb
    simp at hb
    rcases List.mem_map.mp ha with ⟨r, hr, rfl⟩
    have := idsLt r hr
    omega
  · -- duplicate discipline
    intro r' hr' hdup'
    rcases List.mem_map.mp hr' with ⟨r, hr, rfl⟩
    have hrd : r.is_duplicate = true := by
      by_cases h : r.id = ex.id <;> simpa [h] using hdup'
    rcases List.mem_append.mp hr with hrl | hrsingle
    · obtain ⟨hch, hrc, cid, href, c, hcmem, hcid, hcdup⟩ := dupFields r hrl hrd
      have hne : r.id ≠ ex.id := by
        intro he
        have hre : r = ex := id_inj db.records idsNodup hrl hmem he
        rw [hre, hcanon] at hrd
        exact Bool.noConfusion hrd
      refine ⟨by simp [hne, hch], by simp [hne, hrc], cid, by simp [hne, href], ?_⟩
      refine ⟨_, List.mem_map.mpr ⟨c, List.mem_append_left _ hcmem, rfl⟩, ?_, ?_⟩
      · by_cases h : c.id = ex.id
        · rw [if_pos h]
          simpa using hcid
        · rw [if_neg h]
          exact hcid
      · by_cases h : c.id = ex.id
        · rw [if_pos h]
          simpa using hcdup
        · rw [if_neg h]
          exact hcdup
    · rcases List.mem_singleton.mp hrsingle with rfl
      have hne : db.nextId ≠ ex.id := by omega
      refine ⟨by simp [hne], by simp [hne], ex.id, by simp [hne], ?_⟩
      refine ⟨_, List.mem_map.mpr ⟨ex, List.mem_append_left _ hmem, rfl⟩, ?_, ?_⟩
      · simp
      · simp [hcanon]
  · -- canonical accounting
    intro r' hr' hcanon'
    rcases List.mem_map.mp hr' with ⟨r, hr, rfl⟩
    have hrc0 : r.is_duplicate = false := by
      by_cases h : r.id = ex.id <;> simpa [h] using hcanon'
    rcases List.mem_append.mp hr with hrl | hrsingle
    · obtain ⟨hrefn, hrc⟩ := canonFields r hrl hrc0
      have hmapinv := dupCount_map_invariant
        (db.records ++ [{ id := db.nextId, file := ex.file,
                          original_filename := f.name, file_type := f.content_type,
                          size := f.stream.data.length, uploaded_at := now,
                          content_hash := none, is_duplicate := true,
                          reference_count := 1, referenced_file := some ex.id }])
        (fun r => if r.id = ex.id then
          { r with reference_count := r.reference_count + 1 } else r)
        (fun r => by by_cases h : r.id = ex.id <;> simp [h])
        (fun r => by by_cases h : r.id = ex.id <;> simp [h])
      by_cases hid : r.id = ex.id
      · have hre : r = ex := id_inj db.records idsNodup hrl hmem hid
        subst hre
        have hone : dupCount [{ id := db.nextId, file := r.file,
                                 original_filename := f.name, file_type := f.content_type,
                                 size := f.stream.data.length, uploaded_at := now,
                                 content_hash := none, is_duplicate := true,
                                 reference_count := 1,
                                 referenced_file := some r.id }] r.id = 1 := by
          unfold dupCount
          simp [List.countP_cons]
        refine ⟨by simp [hrefn], ?_⟩
        simp only [eq_self_iff_true, if_true]
        rw [hmapinv, dupCount_append, hone]
        omega
      · refine ⟨by simp [hid, hrefn], ?_⟩
        simp only [if_neg hid]
        rw [hmapinv, dupCount_append]
        have hzero : dupCount [{ id := db.nextId, file := ex.file,
                                  original_filename := f.name, file_type := f.content_type,
                                  size := f.stream.data.length, uploaded_at := now,
                                  content_hash := none, is_duplicate := true,
                                  reference_count := 1,
                                  referenced_file := some ex.id }] r.id = 0 := by
          unfold dupCount
          have : ex.id ≠ r.id := fun he => hid he.symm
          simp [List.countP_cons, this]
        rw [hzero]
        omega
    · rcases List.mem_singleton.mp hrsingle with rfl
      have hne : db.nextId ≠ ex.id := by omega
      rw [if_neg (by simpa using hne)] at hcanon'
      exact absurd hcanon' (by simp)

/-- `dupCount` of a single record is its own contribution. -/
theorem dupCount_singleton (x : File) (cid : Nat) :
    dupCount [x] cid =
      if x.is_duplicate && x.referenced_file == some cid then 1 else 0 := by
  unfold dupCount
  rw [List.countP_cons]
  simp

/-- A canonical record contributes nothing to any `dupCount`. -/
theorem dupCount_singleton_canon (x : File) (hx : x.is_duplicate = false)
    (cid : Nat) : dupCount [x] cid = 0 := by
  unfold dupCount
  rw [List.countP_cons]
  simp [hx]

/-- Ingest (the un-raced transaction) preserves the invariant. -/
theorem inv_create (db : DB) (f : UploadedFile) (now : Nat) (hinv : Inv db) :
    Inv (create db f now).1 := by
  unfold create
  dsimp only
  rcases hfind : findByContentHash db.records ((compute_file_hash f.stream 8192).1)
    with _ | ex
  · simp only [hfind]
    obtain ⟨idsLt, idsNodup, dupFields, canonFields⟩ := hinv
    refine ⟨?_, ?_, ?_, ?_⟩
    · dsimp only
      intro r hr
      rcases List.mem_append.mp hr with hrl | hrs
      · have := idsLt r hrl
        omega
      · rcases List.mem_singleton.mp hrs with rfl
        dsimp only
        omega
    · dsimp only
      rw [List.map_append, List.nodup_append]
      refine ⟨idsNodup, by simp, ?_⟩
      intro a ha hb
      simp at hb
      rcases List.mem_map.mp ha with ⟨r, hr, rfl⟩
      have := idsLt r hr
      omega
    · dsimp only
      intro r hr hdup
      rcases List.mem_append.mp hr with hrl | hrs
      · obtain ⟨hch, hrc, cid, href, c, hc, hcid, hcd⟩ := dupFields r hrl hdup
        exact ⟨hch, hrc, cid, href, c, List.mem_append_left _ hc, hcid, hcd⟩
      · rcases List.mem_singleton.mp hrs with rfl
        simp at hdup
    · dsimp only
      intro r hr hcan
      rcases List.mem_append.mp hr with hrl | hrs
      · obtain ⟨hrefn, hrc⟩ := canonFields r hrl hcan
        refine ⟨hrefn, ?_⟩
        rw [dupCount_append, dupCount_singleton_canon _ rfl]
        omega
      · rcases List.mem_singleton.mp hrs with rfl
        refine ⟨rfl, ?_⟩
        rw [dupCount_append, dupCount_singleton_canon _ rfl]
        dsimp only
        have h1 : dupCount db.records db.nextId = 0 := by
          unfold dupCount
          rw [List.countP_eq_zero]
          intro a ha hpa
          simp only [Bool.and_eq_true, beq_iff_eq] at hpa
          obtain ⟨had, haref⟩ := hpa
          obtain ⟨_, _, cid, href, c, hc, hcid, _⟩ := dupFields a ha had
          rw [href] at haref
          have hcpk : cid = db.nextId := Option.some.inj haref
          have hlt := idsLt c hc
          omega
        omega
  · simp only [hfind]
    have hfind' : db.records.find?
        (fun r => r.content_hash == some ((compute_file_hash f.stream 8192).1)) = some ex :=
      hfind
    have hmem := List.mem_of_find?_eq_some hfind'
    have hpred := List.find?_some hfind'
    have hch : ex.content_hash = some ((compute_file_hash f.stream 8192).1) := by
      simpa using hpred
    have hcanon : ex.is_duplicate = false := by
      cases hdup : ex.is_duplicate
      · rfl
      · obtain ⟨hnone, _⟩ := hinv.dupFields ex hmem hdup
        rw [hnone] at hch
        exact Option.noConfusion hch
    exact inv_createDuplicate db ex f now hinv hmem hcanon

/-- The `IntegrityError` fallback preserves the invariant. -/
theorem inv_createOnConflict (db : DB) (f : UploadedFile) (now : Nat)
    (db2 : DB) (rec : File) (hinv : Inv db)
    (h : createOnConflict db f now = some (db2, rec)) : Inv db2 := by
  unfold createOnConflict at h
  dsimp only at h
  rcases hfind : findByContentHash db.records ((compute_file_hash f.stream 8192).1)
    with _ | ex
  · rw [hfind] at h
    exact Option.noConfusion h
  · rw [hfind] at h
    injection h with h'
    have hd := congrArg Prod.fst h'
    dsimp only at hd
    rw [← hd]
    have hfind' : db.records.find?
        (fun r => r.content_hash == some ((compute_file_hash f.stream 8192).1)) = some ex :=
      hfind
    have hmem := List.mem_of_find?_eq_some hfind'
    have hpred := List.find?_some hfind'
    have hch : ex.content_hash = some ((compute_file_hash f.stream 8192).1) := by
      simpa using hpred
    have hcanon : ex.is_duplicate = false := by
      cases hdup : ex.is_duplicate
      · rfl
      · obtain ⟨hnone, _⟩ := hinv.dupFields ex hmem hdup
        rw [hnone] at hch
        exact Option.noConfusion hch
    refine inv_createDuplicate _ ex f now ?_ hmem hcanon
    exact ⟨hinv.idsLt, hinv.idsNodup, hinv.dupFields, hinv.canonFields⟩

/-- Deletion preserves the invariant, whatever the target. -/
theorem inv_destroy (db : DB) (pk : Nat) (hinv : Inv db) :
    Inv (destroy db pk).1 := by
  obtain ⟨idsLt, idsNodup, dupFields, canonFields⟩ := hinv
  unfold destroy
  rcases hfind : db.records.find? (fun r => r.id == pk) with _ | inst
  · simp only [hfind]
    exact ⟨idsLt, idsNodup, dupFields, canonFields⟩
  · simp only [hfind]
    have hmem := List.mem_of_find?_eq_some hfind
    have hpk : inst.id = pk := by simpa using List.find?_some hfind
    by_cases hdup : inst.is_duplicate = true
    · rw [if_pos hdup]
      obtain ⟨hch, hrc1, cid, href, c, hcmem, hcid, hcdup⟩ := dupFields inst hmem hdup
      rw [href]
      have hnoref : ∀ y ∈ db.records, y.referenced_file ≠ some pk := by
        intro y hy hyr
        cases hydup : y.is_duplicate
        · have := (canonFields y hy hydup).1
          rw [this] at hyr
          exact Option.noConfusion hyr
        · obtain ⟨_, _, cid', href', c', hc', hcid', hcdup'⟩ := dupFields y hy hydup
          rw [href'] at hyr
          have hcpk : cid' = pk := Option.some.inj hyr
          have hceq : c' = inst := id_inj db.records idsNodup hc' hmem (by omega)
          rw [hceq, hdup] at hcdup'
          exact Bool.noConfusion hcdup'
      have hanyf : ((db.records.map (fun r =>
          if r.id = cid then { r with reference_count := r.reference_count - 1 }
          else r)).any (fun r => r.referenced_file == some pk && r.id != pk)) = false := by
        rw [List.any_eq_false]
        intro x hx
        rcases List.mem_map.mp hx with ⟨y, hy, rfl⟩
        have hyref := hnoref y hy
        by_cases h : y.id = cid <;> simp [h, hyref]
      unfold deleteRow
      rw [hanyf]
      simp only [Bool.false_eq_true, if_false]
      have hcidnepk : cid ≠ pk := by
        intro he
        have hceq : c = inst := id_inj db.records idsNodup hcmem hmem (by omega)
        rw [hceq, hdup] at hcdup
        exact Bool.noConfusion hcdup
      have hdcount : ∀ X, dupCount ((db.records.map (fun r =>
          if r.id = cid then { r with reference_count := r.reference_count - 1 }
          else r)).filter (fun r => r.id ≠ pk)) X
          = dupCount (db.records.filter (fun r => r.id ≠ pk)) X := by
        intro X
        unfold dupCount
        rw [List.countP_filter, List.countP_map, List.countP_filter]
        apply List.countP_congr
        intro y hy
        by_cases h : y.id = cid <;> simp [Function.comp, h]
      have hremove := dupCount_remove_id db.records idsNodup inst hmem
      simp only [hpk] at hremove
      refine ⟨?_, ?_, ?_, ?_⟩
      · dsimp only
        intro x hx
        have hx1 := List.mem_of_mem_filter hx
        rcases List.mem_map.mp hx1 with ⟨y, hy, rfl⟩
        have := idsLt y hy
        by_cases h : y.id = cid <;> simp [h] <;> omega
      · dsimp only
        apply List.Nodup.sublist
          (List.Sublist.map (fun r : File => r.id) (List.filter_sublist _))
        rw [List.map_map]
        have hcomp : ((fun r => r.id) ∘ (fun r : File =>
            if r.id = cid then { r with reference_count := r.reference_count - 1 }
            else r)) = fun r : File => r.id := by
          funext y
          by_cases h : y.id = cid <;> simp [h]
        rw [hcomp]
        exact idsNodup
      · dsimp only
        intro x hx hxdup
        have hx1 := List.mem_of_mem_filter hx
        rcases List.mem_map.mp hx1 with ⟨y, hy, rfl⟩
        have hydup : y.is_duplicate = true := by
          by_cases h : y.id = cid <;> simpa [h] using hxdup
        obtain ⟨hch', hrc', cid', href', c', hc', hcid', hcdup'⟩ := dupFields y hy hydup
        have hyne : y.id ≠ cid := by
          intro he
          have hyeq : y = c := id_inj db.records idsNodup hy hcmem (by omega)
          rw [hyeq] at hydup
          rw [hydup] at hcdup
          exact Bool.noConfusion hcdup
        have hc'ne : c'.id ≠ pk := by
          intro he
          have hceq : c' = inst := id_inj db.records idsNodup hc' hmem (by omega)
          rw [hceq, hdup] at hcdup'
          exact Bool.noConfusion hcdup'
        refine ⟨by simp [hyne, hch'], by simp [hyne, hrc'], cid',
          by simp [hyne, href'], ?_⟩
        refine ⟨(if c'.id = cid then
            { c' with reference_count := c'.reference_count - 1 } else c'), ?_, ?_, ?_⟩
        · apply List.mem_filter.mpr
          constructor
          · exact List.mem_map.mpr ⟨c', hc', rfl⟩
          · by_cases h : c'.id = cid <;> simp [h, hc'ne, hcidnepk]
        · by_cases h : c'.id = cid
          · rw [if_pos h]
            exact hcid'
          · rw [if_neg h]
            exact hcid'
        · by_cases h : c'.id = cid
          · rw [if_pos h]
            exact hcdup'
          · rw [if_neg h]
            exact hcdup'
      · dsimp only
        intro x hx hxcan
        have hx1 := List.mem_of_mem_filter hx
        rcases List.mem_map.mp hx1 with ⟨y, hy, rfl⟩
        have hycan : y.is_duplicate = false := by
          by_cases h : y.id = cid <;> simpa [h] using hxcan
        obtain ⟨hrefn, hrc⟩ := canonFields y hy hycan
        by_cases hyc : y.id = cid
        · have hyeq : y = c := id_inj db.records idsNodup hy hcmem (by omega)
          subst hyeq
          refine ⟨by simp [hyc, hrefn], ?_⟩
          rw [if_pos hyc]
          dsimp only
          rw [hdcount]
          have hI := hremove y.id
          have hite : (inst.is_duplicate && inst.referenced_file == some y.id) = true := by
            simp [hdup, href, hyc]
          simp only [hite, if_true] at hI
          omega
        · refine ⟨by simp [hyc, hrefn], ?_⟩
          rw [if_neg hyc]
          rw [hdcount]
          have hI := hremove y.id
          have hite : (inst.is_duplicate && inst.referenced_file == some y.id) = false := by
            simp [href]
            omega
          simp only [hite, Bool.false_eq_true, if_false] at hI
          omega
    · rw [if_neg hdup]
      have hdupf : inst.is_duplicate = false := by
        revert hdup
        cases inst.is_duplicate <;> simp
      by_cases hrcgt : 1 < inst.reference_count
      · rw [if_pos hrcgt]
        exact ⟨idsLt, idsNodup, dupFields, canonFields⟩
      · rw [if_neg hrcgt]
        have hrceq := (canonFields inst hmem hdupf).2
        have hdc0 : dupCount db.records pk = 0 := by
          rw [← hpk]
          omega
        have hanyf : (db.records.any
            (fun r => r.referenced_file == some pk && r.id != pk)) = false := by
          rw [List.any_eq_false]
          intro x hx
          have hxref : x.referenced_file ≠ some pk := by
            intro hxr
            cases hxdup : x.is_duplicate
            · have := (canonFields x hx hxdup).1
              rw [this] at hxr
              exact Option.noConfusion hxr
            · have hppos : 0 < dupCount db.records pk := by
                unfold dupCount
                rw [List.countP_pos]
                exact ⟨x, hx, by simp [hxdup, hxr]⟩
              omega
          simp [hxref]
        unfold deleteRow
        rw [hanyf]
        simp only [Bool.false_eq_true, if_false]
        have hremove := dupCount_remove_id db.records idsNodup inst hmem
        simp only [hpk] at hremove
        have hite0 : ∀ X, (inst.is_duplicate && inst.referenced_file == some X) = false := by
          intro X
          simp [hdupf]
        refine ⟨?_, ?_, ?_, ?_⟩
        · dsimp only
          intro x hx
          exact idsLt x (List.mem_of_mem_filter hx)
        · dsimp only
          have hsub : ((db.records.filter (fun r => r.id ≠ pk)).map
              (fun r : File => r.id)).Sublist (db.records.map (fun r : File => r.id)) :=
            List.Sublist.map (fun r : File => r.id) (List.filter_sublist _)
          exact List.Nodup.sublist hsub idsNodup
        · dsimp only
          intro x hx hxdup
          have hx1 := List.mem_of_mem_filter hx
          obtain ⟨hch', hrc', cid', href', c', hc', hcid', hcdup'⟩ := dupFields x hx1 hxdup
          have hc'ne : c'.id ≠ pk := by
            intro he
            have hppos : 0 < dupCount db.records pk := by
              unfold dupCount
              rw [List.countP_pos]
              refine ⟨x, hx1, ?_⟩
              simp [hxdup, href']
              omega
            omega
          refine ⟨hch', hrc', cid', href', c', ?_, hcid', hcdup'⟩
          apply List.mem_filter.mpr
          exact ⟨hc', by simpa using hc'ne⟩
        · dsimp only
          intro x hx hxcan
          have hx1 := List.mem_of_mem_filter hx
          obtain ⟨hrefn', hrc'⟩ := canonFields x hx1 hxcan
          refine ⟨hrefn', ?_⟩
          have hI := hremove x.id
          simp only [hite0, Bool.false_eq_true, if_false] at hI
          omega

/-- Every store reachable from the empty store by ingests, raced ingests
and deletions satisfies the record-level invariant. -/
theorem inv_of_reachable (db : DB) (h : Reachable db) : Inv db := by
  induction h with
  | init => exact inv_init
  | step_create db f now _ ih => exact inv_create db f now ih
  | step_conflict db f g n1 n2 db' rec _ hnone heq hstep ih =>
      exact inv_createOnConflict (create db g n2).1 f n1 db' rec
        (inv_create db g n2 ih) hstep
  | step_destroy db pk _ ih => exact inv_destroy db pk ih

/-- C4: in every reachable store, each canonical record's
`reference_count` equals 1 plus the number of live duplicate records
referencing it, and every duplicate record's own `reference_count` is
exactly 1; since this holds of every state the operations can produce, no
operation ever leaves a duplicate's `reference_count` at another value. -/
theorem reachable_reference_counts (db : DB) (h : Reachable db) :
    (∀ r ∈ db.records, r.is_duplicate = false →
      r.reference_count = 1 + dupCount db.records r.id) ∧
    (∀ r ∈ db.records, r.is_duplicate = true → r.reference_count = 1) := by
  obtain ⟨_, _, dupFields, canonFields⟩ := inv_of_reachable db h
  exact ⟨fun r hr hc => (canonFields r hr hc).2,
    fun r hr hd => (dupFields r hr hd).2.1⟩

set_option maxRecDepth 8192 in
/-- The reference-count discipline, checked concretely on the two-ingest
store: the canonical record carries count `1 + 1` and the duplicate
carries count 1. -/
theorem reachable_reference_counts_witness :
    (canonTwo ∈ dbTwo.records ∧ canonTwo.is_duplicate = false ∧
      canonTwo.reference_count = 1 + dupCount dbTwo.records canonTwo.id) ∧
    (dupB ∈ dbTwo.records ∧ dupB.is_duplicate = true ∧
      dupB.reference_count = 1) := by
  have h := reachable_reference_counts dbTwo
    (Reachable.step_create dbOne upB 1
      (Reachable.step_create emptyDB upA 0 Reachable.init))
  exact ⟨⟨by decide, by decide, h.1 canonTwo (by decide) (by decide)⟩,
    ⟨by decide, by decide, h.2 dupB (by decide) (by decide)⟩⟩

end FileVault
